import Mathlib

/-!
# spz-converter: the legacy `.splat` decoder of `tools/spz-convert.cc`

A shallow embedding of `invSigmoid`, `parseCoordinateSystem`, `getFileExtension`,
`loadSplatFile` and `main` of `src/tools/spz-convert.cc`.

C++ `float` is embedded as IEEE 754 binary32 with round-to-nearest-even, every
operation rounded on its own (no contraction, no extended precision).  The only
library function whose result is not fixed by IEEE 754, `std::log`, is a
parameter `logf` of the embedding.
-/

namespace Spz

/-! ## Binary32 arithmetic -/

/-- A binary32 datum.  `fin neg m e` stands for `(-1)^neg * m * 2^e / 2^149`; the
canonical encodings have `m < 2^24`, `e ≤ 253` and `e = 0` whenever `m < 2^23`.
NaN payloads are not distinguished. -/
inductive F32 where
  | nan
  | inf (neg : Bool)
  | fin (neg : Bool) (m : Nat) (e : Nat)
  deriving DecidableEq, Repr

/-- Round-half-to-even of the quotient `n / d`. -/
def rhe (n d : Nat) : Nat :=
  if 2 * (n % d) < d then n / d
  else if d < 2 * (n % d) then n / d + 1
  else if n / d % 2 = 0 then n / d else n / d + 1

/-- Helper of `ilog2`, structural in the fuel. -/
def ilog2Aux : Nat → Nat → Nat
  | 0, _ => 0
  | fuel + 1, n => if n < 2 then 0 else ilog2Aux fuel (n / 2) + 1

/-- One step of `ilog2`: takes `2^k` out of `p.1` when it is there, and counts it. -/
def ilog2Step (k : Nat) (p : Nat × Nat) : Nat × Nat :=
  if 2 ^ k ≤ p.1 then (p.1 / 2 ^ k, p.2 + k) else p

/-- Position of the leading bit: `floor (log2 n)` for `n > 0`; by bisection below
`2^512`, where every quotient of two binary32 operands lies. -/
def ilog2 (n : Nat) : Nat :=
  if n < 2 ^ 512 then
    (ilog2Step 1 (ilog2Step 2 (ilog2Step 4 (ilog2Step 8 (ilog2Step 16 (ilog2Step 32
      (ilog2Step 64 (ilog2Step 128 (ilog2Step 256 (n, 0)))))))))).2
  else ilog2Aux n n

/-- Helper of `isqrt`: fixes the bits of the root from bit `k - 1` downwards. -/
def isqrtAux (n : Nat) : Nat → Nat → Nat
  | 0, r => r
  | k + 1, r => if (r + 2 ^ k) * (r + 2 ^ k) ≤ n then isqrtAux n k (r + 2 ^ k) else isqrtAux n k r

/-- Integer square root, `floor (sqrt n)`. -/
def isqrt (n : Nat) : Nat := isqrtAux n (ilog2 n / 2 + 1) 0

/-- Rounds the non-negative rational `N / D`, given in units of `2^-149`, to the
nearest binary32 (ties to even) and gives it the sign `neg`; overflows to infinity. -/
def roundScaled (neg : Bool) (N D : Nat) : F32 :=
  let e := ilog2 (N / D) - 23
  let m := rhe N (D * 2 ^ e)
  if m = 2 ^ 24 then (if 253 ≤ e then F32.inf neg else F32.fin neg (2 ^ 23) (e + 1))
  else if 253 < e then F32.inf neg else F32.fin neg m e

namespace F32

/-- The float nearest to the decimal `p / q`: how the compiler reads a literal. -/
def lit (p q : Nat) : F32 := roundScaled false (p * 2 ^ 149) q

/-- Conversion of a non-negative integer (a promoted `uint8_t`) to `float`. -/
def ofNat (n : Nat) : F32 := roundScaled false (n * 2 ^ 149) 1

/-- The float of a 32-bit pattern (sign, 8 exponent bits, 23 fraction bits). -/
def ofBits (w : Nat) : F32 :=
  let neg := decide (w / 2 ^ 31 % 2 = 1)
  let ex := w / 2 ^ 23 % 256
  let fr := w % 2 ^ 23
  if ex = 255 then (if fr = 0 then inf neg else nan)
  else if ex = 0 then fin neg fr 0
  else fin neg (2 ^ 23 + fr) (ex - 1)

/-- Unary minus. -/
def neg : F32 → F32
  | nan => nan
  | inf s => inf (!s)
  | fin s m e => fin (!s) m e

/-- `x + y`. -/
def add : F32 → F32 → F32
  | nan, _ => nan
  | _, nan => nan
  | inf s, inf t => if s = t then inf s else nan
  | inf s, fin _ _ _ => inf s
  | fin _ _ _, inf t => inf t
  | fin s m e, fin t n f =>
    if s = t then roundScaled s (m * 2 ^ e + n * 2 ^ f) 1
    else if n * 2 ^ f < m * 2 ^ e then roundScaled s (m * 2 ^ e - n * 2 ^ f) 1
    else if m * 2 ^ e < n * 2 ^ f then roundScaled t (n * 2 ^ f - m * 2 ^ e) 1
    else fin false 0 0

/-- `x - y`. -/
def sub (x y : F32) : F32 := add x (neg y)

/-- `x * y`. -/
def mul : F32 → F32 → F32
  | nan, _ => nan
  | _, nan => nan
  | inf s, inf t => inf (xor s t)
  | inf s, fin t n _ => if n = 0 then nan else inf (xor s t)
  | fin s m _, inf t => if m = 0 then nan else inf (xor s t)
  | fin s m e, fin t n f => roundScaled (xor s t) (m * 2 ^ e * (n * 2 ^ f)) (2 ^ 149)

/-- `x / y`. -/
def div : F32 → F32 → F32
  | nan, _ => nan
  | _, nan => nan
  | inf _, inf _ => nan
  | inf s, fin t _ _ => inf (xor s t)
  | fin s _ _, inf t => fin (xor s t) 0 0
  | fin s m e, fin t n f =>
    if n = 0 then (if m = 0 then nan else inf (xor s t))
    else roundScaled (xor s t) (m * 2 ^ e * 2 ^ 149) (n * 2 ^ f)

/-- `std::sqrt(x)`, correctly rounded.  The root of the scaled operand is taken
with 64 guard bits; a sticky half stands for an inexact root. -/
def sqrt : F32 → F32
  | nan => nan
  | inf s => if s then nan else inf false
  | fin s m e =>
    if m = 0 then fin s 0 0
    else if s then nan
    else
      let a := m * 2 ^ e * 2 ^ 149 * 2 ^ 128
      let r := isqrt a
      roundScaled false (2 * r + (if r * r = a then 0 else 1)) (2 ^ 65)

/-- `x < y`; false when either side is NaN, and `-0 < +0` is false. -/
def lt : F32 → F32 → Bool
  | nan, _ => false
  | _, nan => false
  | inf s, inf t => s && !t
  | inf s, fin _ _ _ => s
  | fin _ _ _, inf t => !t
  | fin s m e, fin t n f =>
    match s, t with
    | false, false => decide (m * 2 ^ e < n * 2 ^ f)
    | true, true => decide (n * 2 ^ f < m * 2 ^ e)
    | true, false => decide (0 < m ∨ 0 < n)
    | false, true => false

/-- `std::max(a, b)`, which is `(a < b) ? b : a`. -/
def max (a b : F32) : F32 := if lt a b then b else a

/-- `std::min(a, b)`, which is `(b < a) ? b : a`. -/
def min (a b : F32) : F32 := if lt b a then b else a

/-- The rational value of a finite float; `0` for infinities and NaN. -/
def toRat : F32 → ℚ
  | fin s m e => (if s then -1 else 1) * ((m : ℚ) * 2 ^ e / 2 ^ 149)
  | _ => 0

/-- The float is neither an infinity nor a NaN. -/
def isFinite : F32 → Bool
  | fin _ _ _ => true
  | _ => false

/-- The sign bit of an infinity or a finite float; `false` for NaN. -/
def isNeg : F32 → Bool
  | nan => false
  | inf s => s
  | fin s _ _ => s

/-- The magnitude of a finite float as a rational; `0` for infinities and NaN. -/
def mag : F32 → ℚ
  | fin _ m e => (m : ℚ) * 2 ^ e / 2 ^ 149
  | _ => 0

/-- The value of a finite float in units of `2^-149`, with its sign; `0` for
infinities and NaN. -/
def scaledInt : F32 → Int
  | fin s m e => if s then -((m * 2 ^ e : Nat) : Int) else ((m * 2 ^ e : Nat) : Int)
  | _ => 0

/-- The magnitude of a finite float in units of `2^-149`; `0` for infinities and NaN. -/
def scaled : F32 → Nat
  | fin _ m e => m * 2 ^ e
  | _ => 0

/-- The float is finite with a magnitude between `lo / 2^149` and `hi / 2^149`. -/
def magWithin (lo hi : Nat) : F32 → Bool
  | fin _ m e => decide (lo ≤ m * 2 ^ e ∧ m * 2 ^ e ≤ hi)
  | _ => false

/-- `x <= y`; false when either side is NaN. -/
def le : F32 → F32 → Bool
  | nan, _ => false
  | _, nan => false
  | x, y => !lt y x

/-- The float is greater than zero; `+inf` is. -/
def isPos : F32 → Bool
  | nan => false
  | inf s => !s
  | fin s m _ => !s && decide (0 < m)

end F32

/-- The rationals `a` and `b` agree up to `k` roundings: each is at most
`(1 + 2^-24)^k` times the other. -/
def Near (k : Nat) (a b : ℚ) : Prop :=
  a ≤ (1 + 1 / 2 ^ 24) ^ k * b ∧ b ≤ (1 + 1 / 2 ^ 24) ^ k * a

/-! ## Scene model -/

/-- A byte of the input file (`uint8_t`). -/
abbrev Byte := Fin 256

/-- Modelled from the spec: `spz::CoordinateSystem` of `splat-types.h`, which is not
among the sources: the eight axis conventions and the sentinel `UNSPECIFIED`. -/
inductive CoordinateSystem where
  | UNSPECIFIED | LDB | RDB | LUB | RUB | LDF | RDF | LUF | RUF
  deriving DecidableEq, Repr

/-- Modelled from the spec: `spz::GaussianCloud` of `splat-types.h`, with the fields
of `GaussianCloudData` in `splat-c-types.h`; constructible empty (`{}`): zero
points and every array empty. -/
structure GaussianCloud where
  numPoints : Int := 0
  shDegree : Int := 0
  antialiased : Bool := false
  positions : List F32 := []
  scales : List F32 := []
  rotations : List F32 := []
  alphas : List F32 := []
  colors : List F32 := []
  sh : List F32 := []
  deriving DecidableEq, Repr

/-- Modelled from the spec: `spz::UnpackOptions` of `load-spz.h`, which is not among
the sources; `toSystem` is its member `to`, the coordinate system a loader
converts to. -/
structure UnpackOptions where
  toSystem : CoordinateSystem := CoordinateSystem.UNSPECIFIED
  deriving DecidableEq, Repr

/-- Modelled from the spec: `spz::PackOptions` of `load-spz.h`, which is not among
the sources; `fromSystem` is its member `from`, the coordinate system the scene to
save is in. -/
structure PackOptions where
  fromSystem : CoordinateSystem := CoordinateSystem.UNSPECIFIED
  deriving DecidableEq, Repr

namespace CoordinateSystem

/-- Modelled from the spec: the direction of each axis, `none` for the sentinel:
whether +x is Right, +y is Up and +z is Front. -/
def axes : CoordinateSystem → Option (Bool × Bool × Bool)
  | UNSPECIFIED => none
  | LDB => some (false, false, false)
  | RDB => some (true, false, false)
  | LUB => some (false, true, false)
  | RUB => some (true, true, false)
  | LDF => some (false, false, true)
  | RDF => some (true, false, true)
  | LUF => some (false, true, true)
  | RUF => some (true, true, true)

end CoordinateSystem

/-- Modelled from the spec: the float `+1` for an axis on which two conventions
agree, `-1` otherwise: a diagonal entry of the conversion matrix. -/
def axisSign (agree : Bool) : F32 := F32.fin (!agree) (2 ^ 23) 126

/-- Modelled from the spec: the diagonal matrix `diag (sx, sy, sz)` applied to every
position of a flat array. -/
def flipPositions (sx sy sz : F32) : List F32 → List F32
  | x :: y :: z :: rest => F32.mul sx x :: F32.mul sy y :: F32.mul sz z :: flipPositions sx sy sz rest
  | rest => rest

/-- Modelled from the spec: every quaternion `(x, y, z, w)` of a flat array
conjugated by `diag (sx, sy, sz)`. -/
def flipRotations (sx sy sz : F32) : List F32 → List F32
  | x :: y :: z :: w :: rest =>
    F32.mul (F32.mul sy sz) x :: F32.mul (F32.mul sx sz) y :: F32.mul (F32.mul sx sy) z :: w ::
      flipRotations sx sy sz rest
  | rest => rest

/-- Modelled from the spec: `GaussianCloud::convertCoordinates` of `splat-types.h`,
which is not among the sources.  A no-op when the two systems are equal or one is
`UNSPECIFIED`; otherwise positions are multiplied by the signed matrix `M` between
the two bases (diagonal for these eight conventions) and rotations become
`M R Mᵗ`; every other field is left alone. -/
def convertCoordinates (c : GaussianCloud) (src dst : CoordinateSystem) : GaussianCloud :=
  match src.axes, dst.axes with
  | some (r, u, f), some (r', u', f') =>
    if src = dst then c
    else
      { c with
        positions := flipPositions (axisSign (r == r')) (axisSign (u == u')) (axisSign (f == f'))
          c.positions
        rotations := flipRotations (axisSign (r == r')) (axisSign (u == u')) (axisSign (f == f'))
          c.rotations }
  | _, _ => c

/-! ## `spz-convert.cc` -/

/-- Line 16: `std::max(1e-6f, std::min(x, 1.0f - 1e-6f))`. -/
def clampUnit (x : F32) : F32 :=
  F32.max (F32.lit 1 1000000) (F32.min x (F32.sub (F32.lit 1 1) (F32.lit 1 1000000)))

/-- Line 17, inside the logarithm: `x / (1.0f - x)` of the clamped `x`. -/
def logitArg (x : F32) : F32 :=
  F32.div (clampUnit x) (F32.sub (F32.lit 1 1) (clampUnit x))

/-- `invSigmoid` (lines 15-18): clamp to `[1e-6f, 1.0f - 1e-6f]`, then the logit. -/
def invSigmoid (logf : F32 → F32) (x : F32) : F32 :=
  logf (logitArg x)

/-- `parseCoordinateSystem` (lines 51-69). -/
def parseCoordinateSystem (str : String) : CoordinateSystem :=
  if str = "RDF" then CoordinateSystem.RDF
  else if str = "RUB" then CoordinateSystem.RUB
  else if str = "LUF" then CoordinateSystem.LUF
  else if str = "RUF" then CoordinateSystem.RUF
  else if str = "LDB" then CoordinateSystem.LDB
  else if str = "RDB" then CoordinateSystem.RDB
  else if str = "LUB" then CoordinateSystem.LUB
  else if str = "LDF" then CoordinateSystem.LDF
  else CoordinateSystem.UNSPECIFIED

/-- Index of the last occurrence of `c`, the `find_last_of` of `std::string`. -/
def findLastOf (c : Char) : List Char → Option Nat
  | [] => none
  | x :: xs =>
    match findLastOf c xs with
    | some i => some (i + 1)
    | none => if x = c then some 0 else none

/-- `getFileExtension` (lines 71-76): the file name from its last dot on. -/
def getFileExtension (filename : String) : String :=
  match findLastOf '.' filename.data with
  | none => ""
  | some pos => String.mk (filename.data.drop pos)

/-- An `int32_t` from a `size_t` (the conversion wraps modulo `2^32`). -/
def toInt32 (n : Nat) : Int :=
  if n % 2 ^ 32 < 2 ^ 31 then (n % 2 ^ 32 : Nat) else ((n % 2 ^ 32 : Nat) : Int) - 2 ^ 32

/-- The `int` product `a * b`; `none` where it overflows 32 bits (undefined). -/
def mulInt32 (a b : Int) : Option Int :=
  if -2 ^ 31 ≤ a * b ∧ a * b < 2 ^ 31 then some (a * b) else none

/-- `std::vector<float>::reserve` of an `int` count: a negative count converts to
a `size_t` above `max_size()` and `reserve` throws `std::length_error` (`none`);
otherwise storage is set aside, which the contents do not show. -/
def reserve (n : Option Int) : Option Unit :=
  match n with
  | some k => if 0 ≤ k then some () else none
  | none => none

/-- `file.read` of `n` bytes: the bytes and the rest of the stream, or `none` when
fewer than `n` are left (the stream goes bad and the buffer is not filled). -/
def readBytes (n : Nat) (s : List Byte) : Option (List Byte × List Byte) :=
  if n ≤ s.length then some (s.take n, s.drop n) else none

/-- Element `i` of a byte buffer viewed as an array of little-endian `float`. -/
def floatAt (bs : List Byte) (i : Nat) : F32 :=
  F32.ofBits ((bs.getD (4 * i) 0).val + 2 ^ 8 * (bs.getD (4 * i + 1) 0).val
    + 2 ^ 16 * (bs.getD (4 * i + 2) 0).val + 2 ^ 24 * (bs.getD (4 * i + 3) 0).val)

/-- Lines 131-133: the log of a raw scale clamped below by `1e-8f`. -/
def decodeScale (logf : F32 → F32) (s : F32) : F32 :=
  logf (F32.max s (F32.lit 1 100000000))

/-- Lines 139-141: a colour byte as a spherical-harmonics DC coefficient. -/
def decodeColor (b : Byte) : F32 :=
  F32.div (F32.sub (F32.div (F32.ofNat b.val) (F32.lit 255 1)) (F32.lit 1 2))
    (F32.lit 282095 1000000)

/-- Line 144: the opacity byte as a logit. -/
def decodeAlpha (logf : F32 → F32) (b : Byte) : F32 :=
  invSigmoid logf (F32.div (F32.ofNat b.val) (F32.lit 255 1))

/-- Line 144, inside the logarithm: the operand `x / (1.0f - x)` for the opacity
byte `b`, with `x` the clamped `b / 255.0f`. -/
def alphaArg (b : Byte) : F32 :=
  logitArg (F32.div (F32.ofNat b.val) (F32.lit 255 1))

/-- Lines 150-153: a rotation byte mapped from `[0, 255]` to `[-1, 1]`. -/
def rotComponent (b : Byte) : F32 :=
  F32.sub (F32.mul (F32.div (F32.ofNat b.val) (F32.lit 255 1)) (F32.lit 2 1)) (F32.lit 1 1)

/-- Line 156: the norm `sqrt (qx*qx + qy*qy + qz*qz + qw*qw)`, summed left to right. -/
def quatNorm (qx qy qz qw : F32) : F32 :=
  F32.sqrt (F32.add (F32.add (F32.add (F32.mul qx qx) (F32.mul qy qy)) (F32.mul qz qz))
    (F32.mul qw qw))

/-- Lines 157-165: division by the norm, or the identity when the norm is not
above zero. -/
def normalizeQuat (qx qy qz qw : F32) : List F32 :=
  if F32.lt (F32.ofNat 0) (quatNorm qx qy qz qw) then
    [F32.div qx (quatNorm qx qy qz qw), F32.div qy (quatNorm qx qy qz qw),
      F32.div qz (quatNorm qx qy qz qw), F32.div qw (quatNorm qx qy qz qw)]
  else [F32.ofNat 0, F32.ofNat 0, F32.ofNat 0, F32.lit 1 1]

/-- Lines 146-170: the four rotation bytes as a quaternion `[x, y, z, w]`. -/
def decodeRotation (b0 b1 b2 b3 : Byte) : List F32 :=
  normalizeQuat (rotComponent b0) (rotComponent b1) (rotComponent b2) (rotComponent b3)

/-- What one turn of the loop of lines 120-171 appends to the scene, from the four
buffers it has read: `pos` and `scale` (12 bytes each), `color` and `rot` (4 each). -/
def pushRecord (logf : F32 → F32) (cloud : GaussianCloud) (pos scale color rot : List Byte) :
    GaussianCloud :=
  { cloud with
    positions := cloud.positions ++ [floatAt pos 0, floatAt pos 1, floatAt pos 2]
    scales := cloud.scales ++ [decodeScale logf (floatAt scale 0),
      decodeScale logf (floatAt scale 1), decodeScale logf (floatAt scale 2)]
    colors := cloud.colors ++ [decodeColor (color.getD 0 0), decodeColor (color.getD 1 0),
      decodeColor (color.getD 2 0)]
    alphas := cloud.alphas ++ [decodeAlpha logf (color.getD 3 0)]
    rotations := cloud.rotations ++
      decodeRotation (rot.getD 0 0) (rot.getD 1 0) (rot.getD 2 0) (rot.getD 3 0) }

/-- One turn of the loop of lines 120-171: the four reads, then the appends.
`none` when a read comes up short. -/
def decodeRecord (logf : F32 → F32) (cloud : GaussianCloud) (s : List Byte) :
    Option (GaussianCloud × List Byte) :=
  match readBytes 12 s with
  | none => none
  | some (pos, s) =>
    match readBytes 12 s with
    | none => none
    | some (scale, s) =>
      match readBytes 4 s with
      | none => none
      | some (color, s) =>
        match readBytes 4 s with
        | none => none
        | some (rot, s) => some (pushRecord logf cloud pos scale color rot, s)

/-- The loop of lines 120-171, run `n` times. -/
def decodeRecords (logf : F32 → F32) : Nat → GaussianCloud → List Byte →
    Option (GaussianCloud × List Byte)
  | 0, cloud, s => some (cloud, s)
  | n + 1, cloud, s =>
    match decodeRecord logf cloud s with
    | some (cloud, s) => decodeRecords logf n cloud s
    | none => none

/-- `loadSplatFile` (lines 81-182).  `file` is the content the name opens, `none`
when the file cannot be opened.  The outer `none` is a call that does not return
(an exception out of `reserve`, or the undefined `int` overflow before it). -/
def loadSplatFile (logf : F32 → F32) (file : Option (List Byte)) (options : UnpackOptions) :
    Option GaussianCloud :=
  match file with
  | none => some {}
  | some buf =>
    let fileSize := buf.length % 2 ^ 64
    if fileSize % 32 ≠ 0 then some {}
    else
      let numPoints := toInt32 (fileSize / 32)
      let cloud : GaussianCloud := { numPoints := numPoints, shDegree := 0, antialiased := false }
      (reserve (mulInt32 numPoints 3)).bind fun _ =>
      (reserve (mulInt32 numPoints 3)).bind fun _ =>
      (reserve (mulInt32 numPoints 4)).bind fun _ =>
      (reserve (some numPoints)).bind fun _ =>
      (reserve (mulInt32 numPoints 3)).bind fun _ =>
      match decodeRecords logf numPoints.toNat cloud buf with
      | none => some {}
      | some (cloud, _) =>
        some (convertCoordinates cloud CoordinateSystem.RUB options.toSystem)

/-- Line 260: `std::transform` of a string with `::tolower`, character by character. -/
def toLower (s : String) : String := String.mk (s.data.map Char.toLower)

/-- What `main` reaches outside the program: the math library's `std::log`, the
file system, and the loaders and writer of the spz library. -/
structure World where
  logf : F32 → F32
  pathExists : String → Bool
  openFile : String → Option (List Byte)
  loadSplatFromPly : String → UnpackOptions → GaussianCloud
  saveSpz : GaussianCloud → PackOptions → String → Bool

/-- The variables the argument loop of `main` sets (lines 190-194). -/
structure CliState where
  inputFile : String := ""
  outputFile : String := ""
  fromCoord : CoordinateSystem := CoordinateSystem.UNSPECIFIED
  toCoord : CoordinateSystem := CoordinateSystem.RUB
  antialiased : Bool := false
  deriving DecidableEq, Repr

/-- The argument loop of `main` (lines 197-242) over `argv[1..]`: the exit code on
the left when the loop returns from `main`, the variables on the right. -/
def parseArgs : List String → CliState → Nat ⊕ CliState
  | [], st => Sum.inr st
  | arg :: rest, st =>
    if arg = "-h" ∨ arg = "--help" then Sum.inl 0
    else if arg = "--from-coord" then
      match rest with
      | [] => Sum.inl 1
      | v :: rest =>
        if parseCoordinateSystem v = CoordinateSystem.UNSPECIFIED then Sum.inl 1
        else parseArgs rest { st with fromCoord := parseCoordinateSystem v }
    else if arg = "--to-coord" then
      match rest with
      | [] => Sum.inl 1
      | v :: rest =>
        if parseCoordinateSystem v = CoordinateSystem.UNSPECIFIED then Sum.inl 1
        else parseArgs rest { st with toCoord := parseCoordinateSystem v }
    else if arg = "--antialiased" then parseArgs rest { st with antialiased := true }
    else if arg.take 1 = "-" then Sum.inl 1
    else if st.inputFile = "" then parseArgs rest { st with inputFile := arg }
    else if st.outputFile = "" then parseArgs rest { st with outputFile := arg }
    else Sum.inl 1

/-- Lines 262-272: the input coordinate system, auto-detected from the extension
when `--from-coord` did not set it; `none` for an unknown file type. -/
def detectFromCoord (fromCoord : CoordinateSystem) (inputExt : String) :
    Option CoordinateSystem :=
  if fromCoord = CoordinateSystem.UNSPECIFIED then
    if inputExt = ".ply" then some CoordinateSystem.RDF
    else if inputExt = ".splat" then some CoordinateSystem.RUB
    else none
  else some fromCoord

/-- How a run of `main` ends. -/
inductive Outcome where
  /-- `main` returns `code` without having called `saveSpz`. -/
  | exit (code : Nat)
  /-- `main` calls `saveSpz cloud options path` and returns `code`. -/
  | saved (code : Nat) (cloud : GaussianCloud) (options : PackOptions) (path : String)
  /-- The loader does not return. -/
  | aborted
  deriving DecidableEq, Repr

/-- `main` (lines 184-330), console output left out.  `fromCoord`, once resolved
by `detectFromCoord`, is read by no later statement of the source. -/
def main (w : World) (argv : List String) : Outcome :=
  if argv.length < 2 then Outcome.exit 1
  else
    match parseArgs argv.tail {} with
    | Sum.inl code => Outcome.exit code
    | Sum.inr st =>
      if st.inputFile = "" ∨ st.outputFile = "" then Outcome.exit 1
      else if w.pathExists st.inputFile = false then Outcome.exit 1
      else
        let inputExt := toLower (getFileExtension st.inputFile)
        match detectFromCoord st.fromCoord inputExt with
        | none => Outcome.exit 1
        | some _ =>
          let unpackOptions : UnpackOptions := { toSystem := st.toCoord }
          let loaded : Option (Option GaussianCloud) :=
            if inputExt = ".ply" then some (some (w.loadSplatFromPly st.inputFile unpackOptions))
            else if inputExt = ".splat" then
              some (loadSplatFile w.logf (w.openFile st.inputFile) unpackOptions)
            else none
          match loaded with
          | none => Outcome.exit 1
          | some none => Outcome.aborted
          | some (some cloud) =>
            if cloud.numPoints = 0 then Outcome.exit 1
            else
              let cloud := { cloud with antialiased := st.antialiased }
              let packOptions : PackOptions := { fromSystem := st.toCoord }
              if w.saveSpz cloud packOptions st.outputFile then
                Outcome.saved 0 cloud packOptions st.outputFile
              else Outcome.saved 1 cloud packOptions st.outputFile

/-! ## The encode direction

No encoder is among the sources; the formulas of the spec's encode contract are
embedded in the same binary32 arithmetic. -/

/-- Modelled from the spec: `clamp(round(x), 0, 255)` as a byte, `round` to the
nearest integer with halves away from zero; NaN gives 0. -/
def roundClampByte : F32 → Nat
  | F32.nan => 0
  | F32.inf s => if s then 0 else 255
  | F32.fin s m e => if s then 0 else Nat.min 255 ((2 * (m * 2 ^ e) + 2 ^ 149) / 2 ^ 150)

/-- Modelled from the spec: the colour byte
`clamp(round((shDC * 0.282095 + 0.5) * 255), 0, 255)`. -/
def encodeColor (shDC : F32) : Nat :=
  roundClampByte (F32.mul (F32.add (F32.mul shDC (F32.lit 282095 1000000)) (F32.lit 1 2))
    (F32.lit 255 1))

/-- Modelled from the spec: the rotation byte
`clamp(round(((q + 1) / 2) * 255), 0, 255)`. -/
def encodeRotation (q : F32) : Nat :=
  roundClampByte (F32.mul (F32.div (F32.add q (F32.lit 1 1)) (F32.lit 2 1)) (F32.lit 255 1))

/-- Modelled from the spec: the logistic function `1 / (1 + exp(-x))`, over the
library's `std::exp`. -/
def sigmoid (expf : F32 → F32) (x : F32) : F32 :=
  F32.div (F32.lit 1 1) (F32.add (F32.lit 1 1) (expf (F32.neg x)))

/-- Modelled from the spec: the opacity byte, `sigmoid(alpha)` quantized like a
colour channel, `clamp(round(sigmoid(alpha) * 255), 0, 255)`. -/
def encodeAlpha (expf : F32 → F32) (alpha : F32) : Nat :=
  roundClampByte (F32.mul (sigmoid expf alpha) (F32.lit 255 1))

/-- The room the byte `a` has in the round trip: with `R` the magnitude of `x`,
`(a - 1/2) * (1 + 1e-6) * (R + 1.001) <= 255 * R` and
`255 * R * (1 + 1e-6) < (a + 1/2) * (R + 0.999)`, over the common denominator. -/
def roundTripMargin (a : Nat) (x : F32) : Bool :=
  decide ((2 * a - 1) * 1000001 * (1000 * x.scaled + 1001 * 2 ^ 149)
      ≤ 510 * 1000000 * 1000 * x.scaled ∧
    510 * 1000001 * 1000 * x.scaled
      < (2 * a + 1) * 1000000 * (1000 * x.scaled + 999 * 2 ^ 149))

/-! ## A logarithm to instantiate `logf` with -/

/-- The integer `k - 149` as a float, at most 127. -/
def floorLog2Value (k : Nat) : F32 :=
  if 149 ≤ k then F32.ofNat (min (k - 149) 127) else F32.neg (F32.ofNat (149 - k))

/-- The binary logarithm rounded down to an integer (and held at 127 from there
on), with the special cases of `std::log`: NaN for a NaN or a negative operand,
`-inf` at either zero, `+inf` at `+inf`.  Like `std::log` it is zero at `1.0f`
and does not decrease on the positive floats. -/
def floorLog2 : F32 → F32
  | F32.nan => F32.nan
  | F32.inf s => if s then F32.nan else F32.inf false
  | F32.fin s m e =>
    if m = 0 then F32.inf true
    else if s then F32.nan
    else floorLog2Value (ilog2 m + e)

/-! ## Inputs used in the statements -/

/-- The record of the scenario: position (1, 2, 3) and scale (1, 1, 1) as
little-endian floats, colour bytes and rotation bytes all 255. -/
def scenarioRecord : List Byte :=
  [0, 0, 128, 63, 0, 0, 0, 64, 0, 0, 64, 64,
   0, 0, 128, 63, 0, 0, 128, 63, 0, 0, 128, 63,
   255, 255, 255, 255,
   255, 255, 255, 255]

/-- What the scenario record decodes to, for a given `std::log`. -/
def scenarioScene (logf : F32 → F32) : GaussianCloud :=
  { numPoints := 1
    shDegree := 0
    antialiased := false
    positions := [F32.lit 1 1, F32.lit 2 1, F32.lit 3 1]
    scales := [logf (F32.lit 1 1), logf (F32.lit 1 1), logf (F32.lit 1 1)]
    colors := [F32.div (F32.lit 1 2) (F32.lit 282095 1000000),
      F32.div (F32.lit 1 2) (F32.lit 282095 1000000),
      F32.div (F32.lit 1 2) (F32.lit 282095 1000000)]
    alphas := [logf (F32.lit 9868940625 10000)]
    rotations := [F32.lit 1 2, F32.lit 1 2, F32.lit 1 2, F32.lit 1 2]
    sh := [] }

/-- A world whose only file is `in.splat`, holding the scenario record; the writer
always succeeds. -/
def scenarioWorld : World :=
  { logf := fun x => x
    pathExists := fun p => decide (p = "in.splat")
    openFile := fun p => if p = "in.splat" then some scenarioRecord else none
    loadSplatFromPly := fun _ _ => {}
    saveSpz := fun _ _ _ => true }

set_option maxRecDepth 100000
set_option exponentiation.threshold 1000


/-! ## Rounding -/

theorem rhe_spec (n d : Nat) (hd : 0 < d) :
    2 * (d * rhe n d) ≤ 2 * n + d ∧ 2 * n ≤ 2 * (d * rhe n d) + d ∧
    n / d ≤ rhe n d ∧ rhe n d ≤ n / d + 1 := by
  have h := Nat.div_add_mod n d
  have hr := Nat.mod_lt n hd
  have e1 : d * (n / d + 1) = d * (n / d) + d := by ring
  unfold rhe
  split_ifs <;> (try simp only [e1]) <;> refine ⟨?_, ?_, ?_, ?_⟩ <;> omega

theorem ilog2Aux_spec : ∀ (fuel n : Nat), n ≤ fuel → 0 < n →
    2 ^ ilog2Aux fuel n ≤ n ∧ n < 2 ^ (ilog2Aux fuel n + 1)
  | 0, n, h, h0 => by omega
  | fuel + 1, n, h, h0 => by
    unfold ilog2Aux
    split_ifs with h2
    · simp; omega
    · have ih := ilog2Aux_spec fuel (n / 2) (by omega) (by omega)
      rw [pow_succ, pow_succ]
      omega

theorem ilog2Step_spec (n k : Nat) (p : Nat × Nat) (h0 : 0 < p.1)
    (h1 : p.1 * 2 ^ p.2 ≤ n) (h2 : n < (p.1 + 1) * 2 ^ p.2) (hk : p.1 < 2 ^ k * 2 ^ k) :
    0 < (ilog2Step k p).1 ∧ (ilog2Step k p).1 * 2 ^ (ilog2Step k p).2 ≤ n ∧
      n < ((ilog2Step k p).1 + 1) * 2 ^ (ilog2Step k p).2 ∧ (ilog2Step k p).1 < 2 ^ k := by
  unfold ilog2Step
  have hpos : 0 < 2 ^ k := by positivity
  split_ifs with h
  · have hq : 0 < p.1 / 2 ^ k := Nat.div_pos h hpos
    have hq2 : p.1 / 2 ^ k < 2 ^ k := (Nat.div_lt_iff_lt_mul hpos).2 hk
    have hdm := Nat.div_add_mod p.1 (2 ^ k)
    have hml := Nat.mod_lt p.1 hpos
    refine ⟨hq, ?_, ?_, hq2⟩
    · calc p.1 / 2 ^ k * 2 ^ (p.2 + k) = (2 ^ k * (p.1 / 2 ^ k)) * 2 ^ p.2 := by
            rw [pow_add]; ring
        _ ≤ p.1 * 2 ^ p.2 := Nat.mul_le_mul_right _ (by omega)
        _ ≤ n := h1
    · calc n < (p.1 + 1) * 2 ^ p.2 := h2
        _ ≤ (2 ^ k * (p.1 / 2 ^ k) + 2 ^ k) * 2 ^ p.2 := Nat.mul_le_mul_right _ (by omega)
        _ = (p.1 / 2 ^ k + 1) * 2 ^ (p.2 + k) := by rw [pow_add]; ring
  · exact ⟨h0, h1, h2, by omega⟩

theorem ilog2_spec (n : Nat) (h0 : 0 < n) : 2 ^ ilog2 n ≤ n ∧ n < 2 ^ (ilog2 n + 1) := by
  unfold ilog2
  split_ifs with hn
  · obtain ⟨a0, a1, a2, a3⟩ := ilog2Step_spec n 256 (n, 0) h0 (by simp) (by simp)
      (by rw [← pow_add]; exact hn)
    obtain ⟨b0, b1, b2, b3⟩ := ilog2Step_spec n 128 _ a0 a1 a2 (by rw [← pow_add]; exact a3)
    obtain ⟨c0, c1, c2, c3⟩ := ilog2Step_spec n 64 _ b0 b1 b2 (by rw [← pow_add]; exact b3)
    obtain ⟨d0, d1, d2, d3⟩ := ilog2Step_spec n 32 _ c0 c1 c2 (by rw [← pow_add]; exact c3)
    obtain ⟨e0, e1, e2, e3⟩ := ilog2Step_spec n 16 _ d0 d1 d2 (by rw [← pow_add]; exact d3)
    obtain ⟨f0, f1, f2, f3⟩ := ilog2Step_spec n 8 _ e0 e1 e2 (by rw [← pow_add]; exact e3)
    obtain ⟨g0, g1, g2, g3⟩ := ilog2Step_spec n 4 _ f0 f1 f2 (by rw [← pow_add]; exact f3)
    obtain ⟨i0, i1, i2, i3⟩ := ilog2Step_spec n 2 _ g0 g1 g2 (by rw [← pow_add]; exact g3)
    obtain ⟨j0, j1, j2, j3⟩ := ilog2Step_spec n 1 _ i0 i1 i2 (by rw [← pow_add]; exact i3)
    generalize ilog2Step 1 (ilog2Step 2 (ilog2Step 4 (ilog2Step 8 (ilog2Step 16 (ilog2Step 32
      (ilog2Step 64 (ilog2Step 128 (ilog2Step 256 (n, 0))))))))) = p at j0 j1 j2 j3
    have hp : p.1 = 1 := by omega
    rw [hp] at j1 j2
    rw [pow_succ]
    constructor <;> omega
  · exact ilog2Aux_spec n n le_rfl h0

theorem isqrtAux_spec (n : Nat) : ∀ (k r : Nat), r * r ≤ n → n < (r + 2 ^ k) * (r + 2 ^ k) →
    isqrtAux n k r * isqrtAux n k r ≤ n ∧ n < (isqrtAux n k r + 1) * (isqrtAux n k r + 1)
  | 0, r, h1, h2 => by simpa [isqrtAux] using ⟨h1, h2⟩
  | k + 1, r, h1, h2 => by
    unfold isqrtAux
    split_ifs with h
    · refine isqrtAux_spec n k (r + 2 ^ k) h ?_
      have : r + 2 ^ k + 2 ^ k = r + 2 ^ (k + 1) := by rw [pow_succ]; ring
      rw [this]; exact h2
    · exact isqrtAux_spec n k r h1 (by omega)

theorem isqrt_spec (n : Nat) : isqrt n * isqrt n ≤ n ∧ n < (isqrt n + 1) * (isqrt n + 1) := by
  refine isqrtAux_spec n _ 0 (by omega) ?_
  rcases Nat.eq_zero_or_pos n with h | h
  · subst h; simp
  · have h1 := (ilog2_spec n h).2
    have h2 : ilog2 n + 1 ≤ (ilog2 n / 2 + 1) + (ilog2 n / 2 + 1) := by omega
    calc n < 2 ^ (ilog2 n + 1) := h1
      _ ≤ 2 ^ ((ilog2 n / 2 + 1) + (ilog2 n / 2 + 1)) := Nat.pow_le_pow_right (by norm_num) h2
      _ = (0 + 2 ^ (ilog2 n / 2 + 1)) * (0 + 2 ^ (ilog2 n / 2 + 1)) := by rw [pow_add]; simp

/-- Rounding a quotient of the normal range: the result is finite, carries the sign
asked for, and is within a factor `1 + 2^-24` of the quotient, both ways. -/
theorem roundScaled_spec (s : Bool) (N D : Nat) (hD : 0 < D) (hlo : 2 ^ 23 * D ≤ N)
    (hhi : N < 2 ^ 276 * D) :
    ∃ m e, roundScaled s N D = F32.fin s m e ∧
      2 ^ 24 * (m * 2 ^ e * D) ≤ (2 ^ 24 + 1) * N ∧
      2 ^ 24 * N ≤ (2 ^ 24 + 1) * (m * 2 ^ e * D) := by
  have hq : 2 ^ 23 ≤ N / D := (Nat.le_div_iff_mul_le hD).2 hlo
  have hq' : N / D < 2 ^ 276 := (Nat.div_lt_iff_lt_mul hD).2 hhi
  obtain ⟨hL1, hL2⟩ := ilog2_spec (N / D) (by omega)
  have hL23 : 23 ≤ ilog2 (N / D) := by
    by_contra hc
    have : 2 ^ (ilog2 (N / D) + 1) ≤ 2 ^ 23 := Nat.pow_le_pow_right (by norm_num) (by omega)
    omega
  have hL275 : ilog2 (N / D) ≤ 275 := by
    by_contra hc
    have : 2 ^ 276 ≤ 2 ^ ilog2 (N / D) := Nat.pow_le_pow_right (by norm_num) (by omega)
    omega
  obtain ⟨e, he⟩ : ∃ e, ilog2 (N / D) = e + 23 := ⟨ilog2 (N / D) - 23, by omega⟩
  have he252 : e ≤ 252 := by omega
  have hd : 0 < D * 2 ^ e := Nat.mul_pos hD (by positivity)
  -- the quotient by the quantum lies in [2^23, 2^24)
  have hN1 : 2 ^ 23 * (D * 2 ^ e) ≤ N := by
    have : 2 ^ (e + 23) * D ≤ N := by
      rw [← he]; exact (Nat.le_div_iff_mul_le hD).1 hL1
    calc 2 ^ 23 * (D * 2 ^ e) = 2 ^ (e + 23) * D := by rw [pow_add]; ring
      _ ≤ N := this
  have hN2 : N < 2 ^ 24 * (D * 2 ^ e) := by
    have : N < 2 ^ (e + 23 + 1) * D := by
      rw [← he]; exact (Nat.div_lt_iff_lt_mul hD).1 hL2
    calc N < 2 ^ (e + 23 + 1) * D := this
      _ = 2 ^ 24 * (D * 2 ^ e) := by rw [pow_add, pow_add]; ring
  obtain ⟨hr1, hr2, hr3, hr4⟩ := rhe_spec N (D * 2 ^ e) hd
  have hfl1 : 2 ^ 23 ≤ N / (D * 2 ^ e) := (Nat.le_div_iff_mul_le hd).2 hN1
  have hfl2 : N / (D * 2 ^ e) < 2 ^ 24 := (Nat.div_lt_iff_lt_mul hd).2 hN2
  have hm : D * 2 ^ e * 2 ^ 23 ≤ D * 2 ^ e * rhe N (D * 2 ^ e) :=
    Nat.mul_le_mul_left _ (by omega)
  have key1 : 2 ^ 24 * (rhe N (D * 2 ^ e) * 2 ^ e * D) ≤ (2 ^ 24 + 1) * N := by
    have : rhe N (D * 2 ^ e) * 2 ^ e * D = D * 2 ^ e * rhe N (D * 2 ^ e) := by ring
    rw [this]; omega
  have key2 : 2 ^ 24 * N ≤ (2 ^ 24 + 1) * (rhe N (D * 2 ^ e) * 2 ^ e * D) := by
    have : rhe N (D * 2 ^ e) * 2 ^ e * D = D * 2 ^ e * rhe N (D * 2 ^ e) := by ring
    rw [this]; omega
  have hsub : ilog2 (N / D) - 23 = e := by omega
  unfold roundScaled
  simp only [hsub]
  by_cases hm24 : rhe N (D * 2 ^ e) = 2 ^ 24
  · refine ⟨2 ^ 23, e + 1, ?_, ?_, ?_⟩
    · rw [if_pos hm24, if_neg (by omega)]
    · have : 2 ^ 23 * 2 ^ (e + 1) * D = rhe N (D * 2 ^ e) * 2 ^ e * D := by
        rw [hm24, pow_succ]; ring
      rw [this]; exact key1
    · have : 2 ^ 23 * 2 ^ (e + 1) * D = rhe N (D * 2 ^ e) * 2 ^ e * D := by
        rw [hm24, pow_succ]; ring
      rw [this]; exact key2
  · exact ⟨rhe N (D * 2 ^ e), e, by rw [if_neg hm24, if_neg (by omega)], key1, key2⟩

/-! ## Relative error of the operations -/

theorem near_refl (a : ℚ) : Near 0 a a := by simp [Near]

theorem near_symm {k : Nat} {a b : ℚ} (h : Near k a b) : Near k b a := ⟨h.2, h.1⟩

theorem rho_pow_pos (k : Nat) : (0 : ℚ) < (1 + 1 / 2 ^ 24) ^ k := by positivity

theorem rho_pow_one_le (k : Nat) : (1 : ℚ) ≤ (1 + 1 / 2 ^ 24) ^ k :=
  one_le_pow₀ (by norm_num)

theorem near_trans {j k : Nat} {a b c : ℚ} (h1 : Near j a b) (h2 : Near k b c) :
    Near (j + k) a c := by
  have hj := rho_pow_pos j
  have hk := rho_pow_pos k
  constructor
  · calc a ≤ (1 + 1 / 2 ^ 24) ^ j * b := h1.1
      _ ≤ (1 + 1 / 2 ^ 24) ^ j * ((1 + 1 / 2 ^ 24) ^ k * c) :=
        mul_le_mul_of_nonneg_left h2.1 hj.le
      _ = (1 + 1 / 2 ^ 24) ^ (j + k) * c := by rw [pow_add]; ring
  · calc c ≤ (1 + 1 / 2 ^ 24) ^ k * b := h2.2
      _ ≤ (1 + 1 / 2 ^ 24) ^ k * ((1 + 1 / 2 ^ 24) ^ j * a) :=
        mul_le_mul_of_nonneg_left h1.2 hk.le
      _ = (1 + 1 / 2 ^ 24) ^ (j + k) * a := by rw [pow_add]; ring

theorem near_mono {j k : Nat} {a b : ℚ} (hjk : j ≤ k) (ha : 0 ≤ a) (hb : 0 ≤ b)
    (h : Near j a b) : Near k a b := by
  have hp : (1 + 1 / 2 ^ 24 : ℚ) ^ j ≤ (1 + 1 / 2 ^ 24) ^ k :=
    pow_le_pow_right₀ (by norm_num) hjk
  exact ⟨h.1.trans (mul_le_mul_of_nonneg_right hp hb),
    h.2.trans (mul_le_mul_of_nonneg_right hp ha)⟩

theorem near_add {k : Nat} {a b c d : ℚ} (h1 : Near k a b) (h2 : Near k c d) :
    Near k (a + c) (b + d) := by
  constructor
  · have := add_le_add h1.1 h2.1; rw [← mul_add] at this; exact this
  · have := add_le_add h1.2 h2.2; rw [← mul_add] at this; exact this

theorem near_mul {j k : Nat} {a b c d : ℚ} (ha : 0 ≤ a) (hb : 0 ≤ b) (hc : 0 ≤ c) (hd : 0 ≤ d)
    (h1 : Near j a b) (h2 : Near k c d) : Near (j + k) (a * c) (b * d) := by
  have hj := rho_pow_pos j
  have hk := rho_pow_pos k
  constructor
  · calc a * c ≤ ((1 + 1 / 2 ^ 24) ^ j * b) * ((1 + 1 / 2 ^ 24) ^ k * d) :=
        mul_le_mul h1.1 h2.1 hc (mul_nonneg hj.le hb)
      _ = (1 + 1 / 2 ^ 24) ^ (j + k) * (b * d) := by rw [pow_add]; ring
  · calc b * d ≤ ((1 + 1 / 2 ^ 24) ^ j * a) * ((1 + 1 / 2 ^ 24) ^ k * c) :=
        mul_le_mul h1.2 h2.2 hd (mul_nonneg hj.le ha)
      _ = (1 + 1 / 2 ^ 24) ^ (j + k) * (a * c) := by rw [pow_add]; ring

theorem near_inv {k : Nat} {c d : ℚ} (hc : 0 < c) (hd : 0 < d) (h : Near k c d) :
    Near k (1 / c) (1 / d) := by
  have hk := rho_pow_pos k
  constructor
  · rw [div_le_iff₀ hc]
    calc (1 : ℚ) = d / d := (div_self hd.ne').symm
      _ ≤ ((1 + 1 / 2 ^ 24) ^ k * c) / d := div_le_div_of_nonneg_right h.2 hd.le
      _ = (1 + 1 / 2 ^ 24) ^ k * (1 / d) * c := by ring
  · rw [div_le_iff₀ hd]
    calc (1 : ℚ) = c / c := (div_self hc.ne').symm
      _ ≤ ((1 + 1 / 2 ^ 24) ^ k * d) / c := div_le_div_of_nonneg_right h.1 hc.le
      _ = (1 + 1 / 2 ^ 24) ^ k * (1 / c) * d := by ring

theorem near_div {j k : Nat} {a b c d : ℚ} (ha : 0 ≤ a) (hb : 0 ≤ b) (hc : 0 < c) (hd : 0 < d)
    (h1 : Near j a b) (h2 : Near k c d) : Near (j + k) (a / c) (b / d) := by
  have h := near_mul ha hb (by positivity) (by positivity) h1 (near_inv hc hd h2)
  simpa [div_eq_mul_inv] using h

/-- Rounding in rational terms. -/
theorem roundScaled_near (s : Bool) (N D : Nat) (hD : 0 < D) (hlo : 2 ^ 23 * D ≤ N)
    (hhi : N < 2 ^ 276 * D) :
    ∃ m e, roundScaled s N D = F32.fin s m e ∧
      Near 1 ((m : ℚ) * 2 ^ e) ((N : ℚ) / D) := by
  obtain ⟨m, e, h, h1, h2⟩ := roundScaled_spec s N D hD hlo hhi
  refine ⟨m, e, h, ?_, ?_⟩
  · have hD' : (0 : ℚ) < D := by exact_mod_cast hD
    have c1 : (2 ^ 24 * ((m : ℚ) * 2 ^ e * D)) ≤ (2 ^ 24 + 1) * N := by exact_mod_cast h1
    rw [pow_one, mul_div_assoc', le_div_iff₀ hD']
    have e1 : (1 + 1 / 2 ^ 24 : ℚ) * N = ((2 ^ 24 + 1) * N) / 2 ^ 24 := by ring
    rw [e1, le_div_iff₀ (by positivity)]
    linarith
  · have hD' : (0 : ℚ) < D := by exact_mod_cast hD
    have c2 : (2 ^ 24 * (N : ℚ)) ≤ (2 ^ 24 + 1) * ((m : ℚ) * 2 ^ e * D) := by exact_mod_cast h2
    rw [pow_one, div_le_iff₀ hD']
    have e1 : (1 + 1 / 2 ^ 24 : ℚ) * ((m : ℚ) * 2 ^ e) * D
        = ((2 ^ 24 + 1) * ((m : ℚ) * 2 ^ e * D)) / 2 ^ 24 := by ring
    rw [e1, le_div_iff₀ (by positivity)]
    linarith

theorem near_scale {k : Nat} {a b : ℚ} (c : ℚ) (hc : 0 < c) (h : Near k a b) :
    Near k (a / c) (b / c) := by
  constructor
  · rw [← mul_div_assoc]; exact div_le_div_of_nonneg_right h.1 hc.le
  · rw [← mul_div_assoc]; exact div_le_div_of_nonneg_right h.2 hc.le

theorem F32.mag_nonneg (x : F32) : 0 ≤ x.mag := by
  cases x <;> simp only [F32.mag] <;> positivity

/-- A product in the normal range is the exact product up to one rounding. -/
theorem F32.mul_near (x y : F32) (hx : x.isFinite = true) (hy : y.isFinite = true)
    (hlo : 1 / 2 ^ 126 ≤ x.mag * y.mag) (hhi : x.mag * y.mag < 2 ^ 127) :
    (F32.mul x y).isFinite = true ∧ (F32.mul x y).isNeg = xor x.isNeg y.isNeg ∧
      Near 1 (F32.mul x y).mag (x.mag * y.mag) := by
  cases x with
  | nan => simp [F32.isFinite] at hx
  | inf s => simp [F32.isFinite] at hx
  | fin s m e =>
    cases y with
    | nan => simp [F32.isFinite] at hy
    | inf t => simp [F32.isFinite] at hy
    | fin t n f =>
      simp only [F32.mag] at hlo hhi
      have e1 : (m : ℚ) * 2 ^ e / 2 ^ 149 * ((n : ℚ) * 2 ^ f / 2 ^ 149)
          = (((m * 2 ^ e * (n * 2 ^ f) : ℕ) : ℚ)) / 2 ^ 298 := by push_cast; ring
      rw [e1] at hlo hhi
      have h1 : 2 ^ 23 * 2 ^ 149 ≤ m * 2 ^ e * (n * 2 ^ f) := by
        rw [le_div_iff₀ (by positivity)] at hlo
        have : ((2 ^ 172 : ℕ) : ℚ) ≤ ((m * 2 ^ e * (n * 2 ^ f) : ℕ) : ℚ) := by
          refine le_trans (le_of_eq ?_) hlo; norm_num
        have := Nat.cast_le.1 this
        calc 2 ^ 23 * 2 ^ 149 = 2 ^ 172 := by norm_num
          _ ≤ _ := this
      have h2 : m * 2 ^ e * (n * 2 ^ f) < 2 ^ 276 * 2 ^ 149 := by
        rw [div_lt_iff₀ (by positivity)] at hhi
        have : ((m * 2 ^ e * (n * 2 ^ f) : ℕ) : ℚ) < ((2 ^ 425 : ℕ) : ℚ) := by
          refine lt_of_lt_of_le hhi (le_of_eq ?_); norm_num
        have := Nat.cast_lt.1 this
        calc m * 2 ^ e * (n * 2 ^ f) < 2 ^ 425 := this
          _ = 2 ^ 276 * 2 ^ 149 := by norm_num
      obtain ⟨m', e', hr, hn⟩ := roundScaled_near (xor s t) _ _ (by positivity) h1 h2
      simp only [F32.mul, hr, F32.isFinite, F32.isNeg, F32.mag, true_and]
      rw [e1]
      have := near_scale (2 ^ 149) (by positivity) hn
      have e2 : (((m * 2 ^ e * (n * 2 ^ f) : ℕ) : ℚ) / ((2 ^ 149 : ℕ) : ℚ)) / 2 ^ 149
          = ((m * 2 ^ e * (n * 2 ^ f) : ℕ) : ℚ) / 2 ^ 298 := by
        push_cast; rw [div_div]; norm_num
      rw [e2] at this
      exact this

/-- A sum of two non-negative floats, in the normal range, is the exact sum up to
one rounding. -/
theorem F32.add_near (x y : F32) (hx : x.isFinite = true) (hy : y.isFinite = true)
    (sx : x.isNeg = false) (sy : y.isNeg = false)
    (hlo : 1 / 2 ^ 126 ≤ x.mag + y.mag) (hhi : x.mag + y.mag < 2 ^ 127) :
    (F32.add x y).isFinite = true ∧ (F32.add x y).isNeg = false ∧
      Near 1 (F32.add x y).mag (x.mag + y.mag) := by
  cases x with
  | nan => simp [F32.isFinite] at hx
  | inf s => simp [F32.isFinite] at hx
  | fin s m e =>
    cases y with
    | nan => simp [F32.isFinite] at hy
    | inf t => simp [F32.isFinite] at hy
    | fin t n f =>
      simp only [F32.isNeg] at sx sy
      subst sx sy
      simp only [F32.mag] at hlo hhi
      have e1 : (m : ℚ) * 2 ^ e / 2 ^ 149 + ((n : ℚ) * 2 ^ f / 2 ^ 149)
          = (((m * 2 ^ e + n * 2 ^ f : ℕ) : ℚ)) / 2 ^ 149 := by push_cast; ring
      rw [e1] at hlo hhi
      have h1 : 2 ^ 23 * 1 ≤ m * 2 ^ e + n * 2 ^ f := by
        rw [le_div_iff₀ (by positivity)] at hlo
        have : ((2 ^ 23 : ℕ) : ℚ) ≤ ((m * 2 ^ e + n * 2 ^ f : ℕ) : ℚ) := by
          refine le_trans (le_of_eq ?_) hlo; norm_num
        have := Nat.cast_le.1 this
        omega
      have h2 : m * 2 ^ e + n * 2 ^ f < 2 ^ 276 * 1 := by
        rw [div_lt_iff₀ (by positivity)] at hhi
        have : ((m * 2 ^ e + n * 2 ^ f : ℕ) : ℚ) < ((2 ^ 276 : ℕ) : ℚ) := by
          refine lt_of_lt_of_le hhi (le_of_eq ?_); norm_num
        have := Nat.cast_lt.1 this
        omega
      obtain ⟨m', e', hr, hn⟩ := roundScaled_near false _ 1 (by norm_num) h1 h2
      simp only [F32.add, if_true, hr, F32.isFinite, F32.isNeg, F32.mag, true_and]
      rw [e1]
      have := near_scale (2 ^ 149) (by positivity) hn
      simpa using this

/-- A quotient in the normal range is the exact quotient up to one rounding. -/
theorem F32.div_near (x y : F32) (hx : x.isFinite = true) (hy : y.isFinite = true)
    (hy0 : 0 < y.mag)
    (hlo : 1 / 2 ^ 126 ≤ x.mag / y.mag) (hhi : x.mag / y.mag < 2 ^ 127) :
    (F32.div x y).isFinite = true ∧ (F32.div x y).isNeg = xor x.isNeg y.isNeg ∧
      Near 1 (F32.div x y).mag (x.mag / y.mag) := by
  cases x with
  | nan => simp [F32.isFinite] at hx
  | inf s => simp [F32.isFinite] at hx
  | fin s m e =>
    cases y with
    | nan => simp [F32.isFinite] at hy
    | inf t => simp [F32.isFinite] at hy
    | fin t n f =>
      simp only [F32.mag] at hlo hhi hy0
      have hn0 : n ≠ 0 := by
        rintro rfl; simp at hy0
      have hK : 0 < n * 2 ^ f := Nat.mul_pos (Nat.pos_of_ne_zero hn0) (by positivity)
      have hKq : (0 : ℚ) < ((n * 2 ^ f : ℕ) : ℚ) := by exact_mod_cast hK
      have e1 : (m : ℚ) * 2 ^ e / 2 ^ 149 / ((n : ℚ) * 2 ^ f / 2 ^ 149)
          = (((m * 2 ^ e * 2 ^ 149 : ℕ) : ℚ)) / ((n * 2 ^ f : ℕ) : ℚ) / 2 ^ 149 := by
        push_cast; field_simp; ring
      rw [e1] at hlo hhi
      have h1 : 2 ^ 23 * (n * 2 ^ f) ≤ m * 2 ^ e * 2 ^ 149 := by
        rw [le_div_iff₀ (by positivity), le_div_iff₀ hKq] at hlo
        have : ((2 ^ 23 * (n * 2 ^ f) : ℕ) : ℚ) ≤ ((m * 2 ^ e * 2 ^ 149 : ℕ) : ℚ) := by
          refine le_trans (le_of_eq ?_) hlo; push_cast; norm_num
        exact Nat.cast_le.1 this
      have h2 : m * 2 ^ e * 2 ^ 149 < 2 ^ 276 * (n * 2 ^ f) := by
        rw [div_lt_iff₀ (by positivity), div_lt_iff₀ hKq] at hhi
        have : ((m * 2 ^ e * 2 ^ 149 : ℕ) : ℚ) < ((2 ^ 276 * (n * 2 ^ f) : ℕ) : ℚ) := by
          refine lt_of_lt_of_le hhi (le_of_eq ?_); push_cast; norm_num
        exact Nat.cast_lt.1 this
      obtain ⟨m', e', hr, hn⟩ := roundScaled_near (xor s t) _ _ hK h1 h2
      simp only [F32.div, hn0, if_false, hr, F32.isFinite, F32.isNeg, F32.mag, true_and]
      rw [e1]
      exact near_scale (2 ^ 149) (by positivity) hn

theorem sqrt_sticky_near (a r : Nat) (h1 : r * r ≤ a) (h2 : a < (r + 1) * (r + 1))
    (hr : 2 ^ 24 ≤ r) :
    Near 1 ((((2 * r + (if r * r = a then 0 else 1) : ℕ) : ℚ)) ^ 2) (4 * (a : ℚ)) := by
  have hrr : 2 ^ 24 * r ≤ r * r := Nat.mul_le_mul_right r hr
  have e2 : (r + 1) * (r + 1) = r * r + 2 * r + 1 := by ring
  rw [e2] at h2
  have key : 2 ^ 24 * ((2 * r + (if r * r = a then 0 else 1)) * (2 * r + (if r * r = a then 0 else 1)))
        ≤ (2 ^ 24 + 1) * (4 * a) ∧
      2 ^ 24 * (4 * a)
        ≤ (2 ^ 24 + 1) * ((2 * r + (if r * r = a then 0 else 1)) * (2 * r + (if r * r = a then 0 else 1))) := by
    split_ifs with h
    · have e3 : (2 * r + 0) * (2 * r + 0) = 4 * (r * r) := by ring
      rw [e3, h]; omega
    · have e3 : (2 * r + 1) * (2 * r + 1) = 4 * (r * r) + 4 * r + 1 := by ring
      rw [e3]
      have : r * r + 1 ≤ a := by omega
      omega
  obtain ⟨k1, k2⟩ := key
  have c1 : (2 ^ 24 : ℚ) * ((((2 * r + (if r * r = a then 0 else 1) : ℕ) : ℚ)) ^ 2)
      ≤ (2 ^ 24 + 1) * (4 * (a : ℚ)) := by
    rw [pow_two]; exact_mod_cast k1
  have c2 : (2 ^ 24 : ℚ) * (4 * (a : ℚ))
      ≤ (2 ^ 24 + 1) * ((((2 * r + (if r * r = a then 0 else 1) : ℕ) : ℚ)) ^ 2) := by
    rw [pow_two]; exact_mod_cast k2
  constructor
  · have e1 : ((1 : ℚ) + 1 / 2 ^ 24) ^ 1 * (4 * (a : ℚ)) = ((2 ^ 24 + 1) * (4 * (a : ℚ))) / 2 ^ 24 := by
      ring
    rw [e1, le_div_iff₀ (by positivity)]; linarith
  · have e1 : ((1 : ℚ) + 1 / 2 ^ 24) ^ 1 * ((((2 * r + (if r * r = a then 0 else 1) : ℕ) : ℚ)) ^ 2)
        = ((2 ^ 24 + 1) * ((((2 * r + (if r * r = a then 0 else 1) : ℕ) : ℚ)) ^ 2)) / 2 ^ 24 := by
      ring
    rw [e1, le_div_iff₀ (by positivity)]; linarith

/-- The square of a computed root is the operand up to three roundings. -/
theorem F32.sqrt_near (x : F32) (hx : x.isFinite = true) (sx : x.isNeg = false)
    (h0 : 0 < x.mag) (hhi : x.mag < 2 ^ 127) :
    (F32.sqrt x).isFinite = true ∧ (F32.sqrt x).isNeg = false ∧
      Near 3 ((F32.sqrt x).mag ^ 2) x.mag := by
  cases x with
  | nan => simp [F32.isFinite] at hx
  | inf s => simp [F32.isFinite] at hx
  | fin s m e =>
    simp only [F32.isNeg] at sx
    subst sx
    simp only [F32.mag] at h0 hhi
    have hm0 : m ≠ 0 := by
      rintro rfl; simp at h0
    have hM1 : 1 ≤ m * 2 ^ e := Nat.mul_pos (Nat.pos_of_ne_zero hm0) (by positivity)
    have hM2 : m * 2 ^ e < 2 ^ 276 := by
      rw [div_lt_iff₀ (by positivity)] at hhi
      have : ((m * 2 ^ e : ℕ) : ℚ) < ((2 ^ 276 : ℕ) : ℚ) := by
        push_cast; refine lt_of_lt_of_le hhi (le_of_eq ?_); norm_num
      exact Nat.cast_lt.1 this
    obtain ⟨r1, r2⟩ := isqrt_spec (m * 2 ^ e * 2 ^ 149 * 2 ^ 128)
    generalize hr : isqrt (m * 2 ^ e * 2 ^ 149 * 2 ^ 128) = r at r1 r2
    have ha1 : 2 ^ 277 ≤ m * 2 ^ e * 2 ^ 149 * 2 ^ 128 := by
      calc 2 ^ 277 = 1 * 2 ^ 149 * 2 ^ 128 := by norm_num
        _ ≤ m * 2 ^ e * 2 ^ 149 * 2 ^ 128 :=
          Nat.mul_le_mul_right _ (Nat.mul_le_mul_right _ hM1)
    have ha2 : m * 2 ^ e * 2 ^ 149 * 2 ^ 128 < 2 ^ 553 := by
      calc m * 2 ^ e * 2 ^ 149 * 2 ^ 128 < 2 ^ 276 * 2 ^ 149 * 2 ^ 128 :=
            Nat.mul_lt_mul_of_pos_right (Nat.mul_lt_mul_of_pos_right hM2 (by positivity))
              (by positivity)
        _ = 2 ^ 553 := by norm_num
    have hr138 : 2 ^ 138 ≤ r := by
      by_contra hc
      have h1 : r + 1 ≤ 2 ^ 138 := by omega
      have h2 : (r + 1) * (r + 1) ≤ 2 ^ 138 * 2 ^ 138 := Nat.mul_le_mul h1 h1
      have h3 : (2 : ℕ) ^ 138 * 2 ^ 138 = 2 ^ 276 := by norm_num
      omega
    have hr277 : r < 2 ^ 277 := by
      by_contra hc
      have h1 : 2 ^ 277 ≤ r := by omega
      have h2 : 2 ^ 277 * 2 ^ 277 ≤ r * r := Nat.mul_le_mul h1 h1
      have h3 : (2 : ℕ) ^ 277 * 2 ^ 277 = 2 ^ 554 := by norm_num
      omega
    have hst : (if r * r = m * 2 ^ e * 2 ^ 149 * 2 ^ 128 then 0 else 1) ≤ 1 := by
      split_ifs <;> omega
    have hlo' : 2 ^ 23 * 2 ^ 65 ≤ 2 * r + (if r * r = m * 2 ^ e * 2 ^ 149 * 2 ^ 128 then 0 else 1) := by
      have : (2 : ℕ) ^ 23 * 2 ^ 65 ≤ 2 ^ 138 := by norm_num
      omega
    have hhi' : 2 * r + (if r * r = m * 2 ^ e * 2 ^ 149 * 2 ^ 128 then 0 else 1) < 2 ^ 276 * 2 ^ 65 := by
      have : (2 : ℕ) ^ 279 ≤ 2 ^ 276 * 2 ^ 65 := by norm_num
      have : (2 : ℕ) ^ 279 = 4 * 2 ^ 277 := by norm_num
      omega
    obtain ⟨m', e', hrs, hn⟩ := roundScaled_near false _ _ (by positivity) hlo' hhi'
    have hst' := sqrt_sticky_near _ r r1 r2 (le_trans (by norm_num) hr138)
    have hsq := near_mul (by positivity) (by positivity) (by positivity) (by positivity) hn hn
    simp only [F32.sqrt, hm0, if_false, hr, hrs, F32.isFinite, F32.isNeg, F32.mag, true_and,
      Bool.false_eq_true]
    -- the square of the rounded root against the square of the sticky root
    have s1 : Near 2 (((m' : ℚ) * 2 ^ e' / 2 ^ 149) ^ 2)
        ((((2 * r + (if r * r = m * 2 ^ e * 2 ^ 149 * 2 ^ 128 then 0 else 1) : ℕ) : ℚ)) ^ 2
          / 2 ^ 428) := by
      have := near_scale (2 ^ 298) (by positivity) hsq
      have ea : (m' : ℚ) * 2 ^ e' * ((m' : ℚ) * 2 ^ e') / 2 ^ 298
          = ((m' : ℚ) * 2 ^ e' / 2 ^ 149) ^ 2 := by
        rw [pow_two, div_mul_div_comm]; norm_num
      have eb : (((2 * r + (if r * r = m * 2 ^ e * 2 ^ 149 * 2 ^ 128 then 0 else 1) : ℕ) : ℚ))
            / ((2 ^ 65 : ℕ) : ℚ)
          * ((((2 * r + (if r * r = m * 2 ^ e * 2 ^ 149 * 2 ^ 128 then 0 else 1) : ℕ) : ℚ))
            / ((2 ^ 65 : ℕ) : ℚ)) / 2 ^ 298
          = (((2 * r + (if r * r = m * 2 ^ e * 2 ^ 149 * 2 ^ 128 then 0 else 1) : ℕ) : ℚ)) ^ 2
            / 2 ^ 428 := by
        rw [pow_two, div_mul_div_comm, div_div]; push_cast; norm_num
      rw [ea, eb] at this
      exact this
    have s2 : Near 1
        ((((2 * r + (if r * r = m * 2 ^ e * 2 ^ 149 * 2 ^ 128 then 0 else 1) : ℕ) : ℚ)) ^ 2
          / 2 ^ 428)
        ((m : ℚ) * 2 ^ e / 2 ^ 149) := by
      have := near_scale (2 ^ 428) (by positivity) hst'
      have ec : 4 * (((m * 2 ^ e * 2 ^ 149 * 2 ^ 128 : ℕ) : ℚ)) / 2 ^ 428
          = (m : ℚ) * 2 ^ e / 2 ^ 149 := by
        push_cast; field_simp; ring
      rw [ec] at this
      exact this
    have s3 := near_trans s1 s2
    exact s3

theorem rho_pow_sixteen : ((1 : ℚ) + 1 / 2 ^ 24) ^ 16 ≤ 1 + 1 / 1000000 := by norm_num

theorem near_crude {k : Nat} {a b : ℚ} (hk : k ≤ 16) (ha : 0 ≤ a) (hb : 0 ≤ b)
    (h : Near k a b) : a ≤ (1 + 1 / 1000000) * b ∧ b ≤ (1 + 1 / 1000000) * a := by
  have h16 := near_mono hk ha hb h
  exact ⟨h16.1.trans (mul_le_mul_of_nonneg_right rho_pow_sixteen hb),
    h16.2.trans (mul_le_mul_of_nonneg_right rho_pow_sixteen ha)⟩

theorem F32.magWithin_spec (lo hi : Nat) (x : F32) (h : x.magWithin lo hi = true) :
    x.isFinite = true ∧ (lo : ℚ) / 2 ^ 149 ≤ x.mag ∧ x.mag ≤ (hi : ℚ) / 2 ^ 149 := by
  cases x with
  | nan => simp [F32.magWithin] at h
  | inf s => simp [F32.magWithin] at h
  | fin s m e =>
    simp only [F32.magWithin, decide_eq_true_eq] at h
    refine ⟨rfl, ?_, ?_⟩
    · simp only [F32.mag]
      apply div_le_div_of_nonneg_right _ (by positivity)
      exact_mod_cast h.1
    · simp only [F32.mag]
      apply div_le_div_of_nonneg_right _ (by positivity)
      exact_mod_cast h.2

theorem F32.toRat_sq (x : F32) : x.toRat ^ 2 = x.mag ^ 2 := by
  cases x with
  | nan => simp [F32.toRat, F32.mag]
  | inf s => simp [F32.toRat, F32.mag]
  | fin s m e => cases s <;> simp [F32.toRat, F32.mag]

theorem F32.ofNat_zero : F32.ofNat 0 = F32.fin false 0 0 := by decide

theorem F32.zero_lt_of_mag_pos (x : F32) (hx : x.isFinite = true) (sx : x.isNeg = false)
    (h0 : 0 < x.mag) : F32.lt (F32.ofNat 0) x = true := by
  cases x with
  | nan => simp [F32.isFinite] at hx
  | inf s => simp [F32.isFinite] at hx
  | fin s m e =>
    simp only [F32.isNeg] at sx
    subst sx
    simp only [F32.mag] at h0
    have hm : 0 < m := by
      rcases Nat.eq_zero_or_pos m with h | h
      · subst h; simp at h0
      · exact h
    have : 0 < m * 2 ^ e := Nat.mul_pos hm (by positivity)
    simp [F32.ofNat_zero, F32.lt, this]


theorem F32.lt_false_of_le {a b : F32} (h : F32.le a b = true) : F32.lt b a = false := by
  cases a <;> cases b <;> simp_all [F32.le]

set_option maxHeartbeats 4000000 in
theorem ofNat_small : ∀ n : Fin 150,
    (F32.ofNat n.val).magWithin (n.val * 2 ^ 149) (n.val * 2 ^ 149) = true ∧
    (F32.ofNat n.val).isNeg = false := by
  decide

theorem ofNat_small_form (n : Nat) (h : n < 150) :
    ∃ m e, F32.ofNat n = F32.fin false m e ∧ m * 2 ^ e = n * 2 ^ 149 := by
  obtain ⟨h1, h2⟩ := ofNat_small ⟨n, h⟩
  simp only at h1 h2
  generalize F32.ofNat n = x at h1 h2
  cases x with
  | nan => simp [F32.magWithin] at h1
  | inf s => simp [F32.magWithin] at h1
  | fin s m e =>
    simp only [F32.isNeg] at h2
    subst h2
    simp only [F32.magWithin, decide_eq_true_eq] at h1
    exact ⟨m, e, rfl, by omega⟩

theorem floorLog2Value_finite (k : Nat) : (floorLog2Value k).isFinite = true := by
  unfold floorLog2Value
  split_ifs with h
  · obtain ⟨m, e, h1, _⟩ := ofNat_small_form (min (k - 149) 127) (by omega)
    rw [h1]; rfl
  · obtain ⟨m, e, h1, _⟩ := ofNat_small_form (149 - k) (by omega)
    rw [h1]; rfl

theorem floorLog2Value_mono (j k : Nat) (h : j ≤ k) :
    F32.le (floorLog2Value j) (floorLog2Value k) = true := by
  unfold floorLog2Value
  have hp : 0 < 2 ^ 149 := by positivity
  split_ifs with h1 h2 h2
  · obtain ⟨m, e, e1, q1⟩ := ofNat_small_form (min (j - 149) 127) (by omega)
    obtain ⟨n, f, e2, q2⟩ := ofNat_small_form (min (k - 149) 127) (by omega)
    rw [e1, e2]
    simp only [F32.le, F32.lt, Bool.not_eq_true', decide_eq_false_iff_not, not_lt]
    rw [q1, q2]
    exact Nat.mul_le_mul_right _ (by omega)
  · omega
  · obtain ⟨m, e, e1, q1⟩ := ofNat_small_form (149 - j) (by omega)
    obtain ⟨n, f, e2, q2⟩ := ofNat_small_form (min (k - 149) 127) (by omega)
    rw [e1, e2]
    rfl
  · obtain ⟨m, e, e1, q1⟩ := ofNat_small_form (149 - j) (by omega)
    obtain ⟨n, f, e2, q2⟩ := ofNat_small_form (149 - k) (by omega)
    rw [e1, e2]
    simp only [F32.neg, F32.le, F32.lt, Bool.not_false, Bool.not_eq_true',
      decide_eq_false_iff_not, not_lt]
    rw [q1, q2]
    exact Nat.mul_le_mul_right _ (by omega)

/-- The stand-in logarithm does not decrease on the positive floats. -/
theorem floorLog2_mono (x y : F32) (hx : x.isPos = true) (hy : y.isPos = true)
    (h : F32.le x y = true) : F32.le (floorLog2 x) (floorLog2 y) = true := by
  cases x with
  | nan => simp [F32.isPos] at hx
  | inf s =>
    cases s
    · cases y with
      | nan => simp [F32.isPos] at hy
      | inf t => cases t
                 · rfl
                 · simp [F32.isPos] at hy
      | fin t n f => simp [F32.le, F32.lt] at h
    · simp [F32.isPos] at hx
  | fin s m e =>
    cases s
    · simp only [F32.isPos, Bool.not_false, Bool.true_and, decide_eq_true_eq] at hx
      cases y with
      | nan => simp [F32.isPos] at hy
      | inf t =>
        cases t
        · have hf := floorLog2Value_finite (ilog2 m + e)
          simp only [floorLog2, Nat.pos_iff_ne_zero.1 hx, if_false, Bool.false_eq_true]
          generalize floorLog2Value (ilog2 m + e) = v at hf
          cases v with
          | nan => simp [F32.isFinite] at hf
          | inf u => simp [F32.isFinite] at hf
          | fin u a b => rfl
        · simp [F32.isPos] at hy
      | fin t n f =>
        cases t
        · simp only [F32.isPos, Bool.not_false, Bool.true_and, decide_eq_true_eq] at hy
          simp only [F32.le, F32.lt, Bool.not_eq_true', decide_eq_false_iff_not, not_lt] at h
          simp only [floorLog2, Nat.pos_iff_ne_zero.1 hx, Nat.pos_iff_ne_zero.1 hy, if_false,
            Bool.false_eq_true]
          apply floorLog2Value_mono
          obtain ⟨a1, _⟩ := ilog2_spec m hx
          obtain ⟨_, b2⟩ := ilog2_spec n hy
          have c1 : 2 ^ (ilog2 m + e) ≤ m * 2 ^ e := by
            rw [pow_add]; exact Nat.mul_le_mul_right _ a1
          have c2 : n * 2 ^ f < 2 ^ (ilog2 n + 1 + f) := by
            rw [pow_add]; exact Nat.mul_lt_mul_of_pos_right b2 (by positivity)
          have c3 : 2 ^ (ilog2 m + e) < 2 ^ (ilog2 n + 1 + f) :=
            lt_of_le_of_lt c1 (lt_of_le_of_lt h c2)
          have c4 := (Nat.pow_lt_pow_iff_right (by norm_num : 1 < 2)).1 c3
          omega
        · simp [F32.isPos] at hy
    · simp [F32.isPos] at hx

/-- The stand-in logarithm is finite on the positive finite floats. -/
theorem floorLog2_finite (x : F32) (hx : x.isFinite = true) (sx : x.isNeg = false)
    (h0 : 0 < x.mag) : (floorLog2 x).isFinite = true := by
  cases x with
  | nan => simp [F32.isFinite] at hx
  | inf s => simp [F32.isFinite] at hx
  | fin s m e =>
    simp only [F32.isNeg] at sx
    subst sx
    have hm : m ≠ 0 := by
      rintro rfl
      simp [F32.mag] at h0
    simp only [floorLog2, hm, if_false, Bool.false_eq_true]
    exact floorLog2Value_finite _

theorem F32.isPos_of_mag_pos (x : F32) (hx : x.isFinite = true) (sx : x.isNeg = false)
    (h0 : 0 < x.mag) : x.isPos = true := by
  cases x with
  | nan => simp [F32.isFinite] at hx
  | inf s => simp [F32.isFinite] at hx
  | fin s m e =>
    simp only [F32.isNeg] at sx
    subst sx
    have hm : 0 < m := by
      rcases Nat.eq_zero_or_pos m with h | h
      · subst h; simp [F32.mag] at h0
      · exact h
    simp [F32.isPos, hm]

/-! ## The shape of a decoded scene -/

theorem flipPositions_length (sx sy sz : F32) : ∀ l : List F32,
    (flipPositions sx sy sz l).length = l.length
  | [] => by simp [flipPositions]
  | [_] => by simp [flipPositions]
  | [_, _] => by simp [flipPositions]
  | _ :: _ :: _ :: rest => by
    simp [flipPositions, flipPositions_length sx sy sz rest]

theorem flipRotations_length (sx sy sz : F32) : ∀ l : List F32,
    (flipRotations sx sy sz l).length = l.length
  | [] => by simp [flipRotations]
  | [_] => by simp [flipRotations]
  | [_, _] => by simp [flipRotations]
  | [_, _, _] => by simp [flipRotations]
  | _ :: _ :: _ :: _ :: rest => by
    simp [flipRotations, flipRotations_length sx sy sz rest]

/-- The fields of a scene that `convertCoordinates` cannot change. -/
theorem convertCoordinates_shape (c : GaussianCloud) (a b : CoordinateSystem) :
    (convertCoordinates c a b).numPoints = c.numPoints ∧
    (convertCoordinates c a b).shDegree = c.shDegree ∧
    (convertCoordinates c a b).antialiased = c.antialiased ∧
    (convertCoordinates c a b).positions.length = c.positions.length ∧
    (convertCoordinates c a b).scales = c.scales ∧
    (convertCoordinates c a b).rotations.length = c.rotations.length ∧
    (convertCoordinates c a b).alphas = c.alphas ∧
    (convertCoordinates c a b).colors = c.colors ∧
    (convertCoordinates c a b).sh = c.sh := by
  unfold convertCoordinates
  split
  · split
    · simp
    · simp [flipPositions_length, flipRotations_length]
  · simp

theorem normalizeQuat_length (x y z w : F32) : (normalizeQuat x y z w).length = 4 := by
  unfold normalizeQuat; split <;> rfl

theorem decodeRecord_some (logf : F32 → F32) (cloud : GaussianCloud) (s : List Byte)
    (h : 32 ≤ s.length) :
    decodeRecord logf cloud s = some (pushRecord logf cloud (s.take 12) ((s.drop 12).take 12)
      ((s.drop 24).take 4) ((s.drop 28).take 4), s.drop 32) := by
  have h1 : readBytes 12 s = some (s.take 12, s.drop 12) := by
    simp [readBytes]; omega
  have h2 : readBytes 12 (s.drop 12) = some ((s.drop 12).take 12, s.drop 24) := by
    simp [readBytes]; omega
  have h3 : readBytes 4 (s.drop 24) = some ((s.drop 24).take 4, s.drop 28) := by
    simp [readBytes]; omega
  have h4 : readBytes 4 (s.drop 28) = some ((s.drop 28).take 4, s.drop 32) := by
    simp [readBytes]; omega
  simp only [decodeRecord, h1, h2, h3, h4]

theorem pushRecord_shape (logf : F32 → F32) (cloud : GaussianCloud)
    (pos scale color rot : List Byte) :
    (pushRecord logf cloud pos scale color rot).numPoints = cloud.numPoints ∧
    (pushRecord logf cloud pos scale color rot).shDegree = cloud.shDegree ∧
    (pushRecord logf cloud pos scale color rot).antialiased = cloud.antialiased ∧
    (pushRecord logf cloud pos scale color rot).sh = cloud.sh ∧
    (pushRecord logf cloud pos scale color rot).positions.length = cloud.positions.length + 3 ∧
    (pushRecord logf cloud pos scale color rot).scales.length = cloud.scales.length + 3 ∧
    (pushRecord logf cloud pos scale color rot).rotations.length = cloud.rotations.length + 4 ∧
    (pushRecord logf cloud pos scale color rot).alphas.length = cloud.alphas.length + 1 ∧
    (pushRecord logf cloud pos scale color rot).colors.length = cloud.colors.length + 3 := by
  simp [pushRecord, decodeRotation, normalizeQuat_length]

/-- The loop succeeds on a stream that holds `n` whole records, and appends `n`
entries of each arity. -/
theorem decodeRecords_some (logf : F32 → F32) : ∀ (n : Nat) (cloud : GaussianCloud)
    (s : List Byte), 32 * n ≤ s.length →
    ∃ c, decodeRecords logf n cloud s = some (c, s.drop (32 * n)) ∧
      c.numPoints = cloud.numPoints ∧ c.shDegree = cloud.shDegree ∧
      c.antialiased = cloud.antialiased ∧ c.sh = cloud.sh ∧
      c.positions.length = cloud.positions.length + 3 * n ∧
      c.scales.length = cloud.scales.length + 3 * n ∧
      c.rotations.length = cloud.rotations.length + 4 * n ∧
      c.alphas.length = cloud.alphas.length + n ∧
      c.colors.length = cloud.colors.length + 3 * n
  | 0, cloud, s, _ => ⟨cloud, by simp [decodeRecords]⟩
  | n + 1, cloud, s, h => by
    have h32 : 32 ≤ s.length := by omega
    have hrest : 32 * n ≤ (s.drop 32).length := by simp; omega
    obtain ⟨c, hc, h1, h2, h3, h4, h5, h6, h7, h8, h9⟩ :=
      decodeRecords_some logf n (pushRecord logf cloud (s.take 12) ((s.drop 12).take 12)
        ((s.drop 24).take 4) ((s.drop 28).take 4)) (s.drop 32) hrest
    refine ⟨c, ?_, ?_⟩
    · simp only [decodeRecords, decodeRecord_some logf cloud s h32, hc, List.drop_drop,
        Nat.mul_succ]
      rw [Nat.add_comm]
    · have e := pushRecord_shape logf cloud (s.take 12) ((s.drop 12).take 12)
        ((s.drop 24).take 4) ((s.drop 28).take 4)
      obtain ⟨e1, e2, e3, e4, e5, e6, e7, e8, e9⟩ := e
      refine ⟨h1.trans e1, h2.trans e2, h3.trans e3, h4.trans e4, ?_, ?_, ?_, ?_, ?_⟩ <;> omega

/-! ## File length, point count and coordinate tokens -/

theorem toInt32_small (n : Nat) (h : n < 2 ^ 31) : toInt32 n = (n : Int) := by
  have h1 : n % 2 ^ 32 = n := Nat.mod_eq_of_lt (by omega)
  unfold toInt32
  rw [h1, if_pos h]

/-- C1: an input whose byte length is not a multiple of 32 makes `loadSplatFile`
return the empty scene: zero points and every array empty. -/
theorem loadSplatFile_bad_length (logf : F32 → F32) (buf : List Byte) (options : UnpackOptions)
    (h : buf.length % 32 ≠ 0) :
    ∃ cloud, loadSplatFile logf (some buf) options = some cloud ∧ cloud.numPoints = 0 ∧
      cloud.positions = [] ∧ cloud.scales = [] ∧ cloud.rotations = [] ∧ cloud.alphas = [] ∧
      cloud.colors = [] ∧ cloud.sh = [] := by
  have h1 : buf.length % 2 ^ 64 % 32 ≠ 0 := by
    rw [Nat.mod_mod_of_dvd _ (by norm_num : 32 ∣ 2 ^ 64)]; exact h
  refine ⟨{}, ?_, rfl, rfl, rfl, rfl, rfl, rfl, rfl⟩
  simp only [loadSplatFile, h1, ne_eq, not_false_eq_true, if_true]

/-- C1 at a buffer of 33 bytes. -/
theorem loadSplatFile_bad_length_witness :
    (List.replicate 33 (0 : Byte)).length % 32 ≠ 0 ∧
    ∃ cloud, loadSplatFile (fun x => x) (some (List.replicate 33 (0 : Byte))) {} = some cloud ∧
      cloud.numPoints = 0 ∧ cloud.positions = [] ∧ cloud.scales = [] ∧ cloud.rotations = [] ∧
      cloud.alphas = [] ∧ cloud.colors = [] ∧ cloud.sh = [] :=
  ⟨by decide, loadSplatFile_bad_length (fun x => x) (List.replicate 33 0) {} (by decide)⟩

/-- C2, as amended: a buffer of a multiple of 32 bytes, below `2^34` bytes (so that
`numPoints * 4` fits an `int`), decodes to a scene of `len / 32` points whose arrays
have 3, 3, 4, 1 and 3 entries a point, with `sh` empty and `shDegree` 0. -/
theorem loadSplatFile_shape (logf : F32 → F32) (buf : List Byte) (options : UnpackOptions)
    (h32 : buf.length % 32 = 0) (hsz : buf.length < 2 ^ 34) :
    ∃ cloud, loadSplatFile logf (some buf) options = some cloud ∧
      cloud.numPoints = ((buf.length / 32 : Nat) : Int) ∧
      cloud.positions.length = 3 * (buf.length / 32) ∧
      cloud.scales.length = 3 * (buf.length / 32) ∧
      cloud.colors.length = 3 * (buf.length / 32) ∧
      cloud.rotations.length = 4 * (buf.length / 32) ∧
      cloud.alphas.length = buf.length / 32 ∧
      cloud.sh = [] ∧ cloud.shDegree = 0 := by
  have hmod : buf.length % 2 ^ 64 = buf.length := Nat.mod_eq_of_lt (by omega)
  have hn : buf.length / 32 < 2 ^ 29 := by omega
  have hto : toInt32 (buf.length / 32) = ((buf.length / 32 : Nat) : Int) :=
    toInt32_small _ (by omega)
  have hm3 : mulInt32 ((buf.length / 32 : Nat) : Int) 3 = some (((buf.length / 32 : Nat) : Int) * 3) := by
    unfold mulInt32; rw [if_pos]; constructor <;> omega
  have hm4 : mulInt32 ((buf.length / 32 : Nat) : Int) 4 = some (((buf.length / 32 : Nat) : Int) * 4) := by
    unfold mulInt32; rw [if_pos]; constructor <;> omega
  obtain ⟨c, hc, h1, h2, _, h4, h5, h6, h7, h8, h9⟩ :=
    decodeRecords_some logf (buf.length / 32)
      { numPoints := ((buf.length / 32 : Nat) : Int), shDegree := 0, antialiased := false } buf
      (by omega)
  obtain ⟨k1, k2, _, k4, k5, k6, k7, k8, k9⟩ :=
    convertCoordinates_shape c CoordinateSystem.RUB options.toSystem
  refine ⟨convertCoordinates c CoordinateSystem.RUB options.toSystem, ?_, ?_⟩
  · have r3 : reserve (some (((buf.length / 32 : Nat) : Int) * 3)) = some () := by
      simp only [reserve]; rw [if_pos]; omega
    have r4 : reserve (some (((buf.length / 32 : Nat) : Int) * 4)) = some () := by
      simp only [reserve]; rw [if_pos]; omega
    have r1 : reserve (some ((buf.length / 32 : Nat) : Int)) = some () := by
      simp only [reserve]; rw [if_pos]; omega
    simp only [loadSplatFile, hmod, h32, ne_eq, not_true_eq_false, if_false, hto, hm3, hm4, r3, r4,
      r1, Option.some_bind, Int.toNat_ofNat, hc]
  · simp only [List.length_nil, Nat.zero_add] at h5 h6 h7 h8 h9
    refine ⟨k1.trans h1, ?_, ?_, ?_, ?_, ?_, ?_, ?_⟩
    · rw [k4, h5]
    · rw [k5, h6]
    · rw [k8, h9]
    · rw [k6, h7]
    · rw [k7, h8]
    · rw [k9, h4]
    · rw [k2, h2]

/-- C2, as amended, at a buffer of two records. -/
theorem loadSplatFile_shape_witness :
    ∃ cloud, loadSplatFile (fun x => x) (some (List.replicate 64 (0 : Byte))) {} = some cloud ∧
      cloud.numPoints = (((List.replicate 64 (0 : Byte)).length / 32 : Nat) : Int) ∧
      cloud.positions.length = 3 * ((List.replicate 64 (0 : Byte)).length / 32) ∧
      cloud.scales.length = 3 * ((List.replicate 64 (0 : Byte)).length / 32) ∧
      cloud.colors.length = 3 * ((List.replicate 64 (0 : Byte)).length / 32) ∧
      cloud.rotations.length = 4 * ((List.replicate 64 (0 : Byte)).length / 32) ∧
      cloud.alphas.length = (List.replicate 64 (0 : Byte)).length / 32 ∧
      cloud.sh = [] ∧ cloud.shDegree = 0 :=
  loadSplatFile_shape (fun x => x) (List.replicate 64 0) {} (by decide) (by decide)

/-- C6: the eight tokens go to the eight conventions of the same names, which are
pairwise distinct and none of them `UNSPECIFIED`; every other string goes to
`UNSPECIFIED`. -/
theorem parseCoordinateSystem_tokens :
    List.map parseCoordinateSystem ["RDF", "RUB", "LUF", "RUF", "LDB", "RDB", "LUB", "LDF"] =
      [CoordinateSystem.RDF, CoordinateSystem.RUB, CoordinateSystem.LUF, CoordinateSystem.RUF,
        CoordinateSystem.LDB, CoordinateSystem.RDB, CoordinateSystem.LUB, CoordinateSystem.LDF] ∧
    (List.map parseCoordinateSystem
      ["RDF", "RUB", "LUF", "RUF", "LDB", "RDB", "LUB", "LDF"]).Nodup ∧
    CoordinateSystem.UNSPECIFIED ∉ List.map parseCoordinateSystem
      ["RDF", "RUB", "LUF", "RUF", "LDB", "RDB", "LUB", "LDF"] ∧
    (∀ s t : String, s ∈ ["RDF", "RUB", "LUF", "RUF", "LDB", "RDB", "LUB", "LDF"] →
      t ∈ ["RDF", "RUB", "LUF", "RUF", "LDB", "RDB", "LUB", "LDF"] →
      parseCoordinateSystem s = parseCoordinateSystem t → s = t) ∧
    (∀ s : String, s ∉ ["RDF", "RUB", "LUF", "RUF", "LDB", "RDB", "LUB", "LDF"] →
      parseCoordinateSystem s = CoordinateSystem.UNSPECIFIED) ∧
    List.map parseCoordinateSystem ["", "rdf", "Rdf", " RDF", "RDF ", "RDFX", "UNSPECIFIED"] =
      List.replicate 7 CoordinateSystem.UNSPECIFIED := by
  refine ⟨by decide, by decide, by decide, ?_, ?_, by decide⟩
  · intro s t hs ht
    simp only [List.mem_cons, List.mem_singleton, List.not_mem_nil, or_false] at hs ht
    rcases hs with rfl | rfl | rfl | rfl | rfl | rfl | rfl | rfl <;>
      rcases ht with rfl | rfl | rfl | rfl | rfl | rfl | rfl | rfl <;> decide
  · intro s hs
    simp only [List.mem_cons, List.mem_singleton, List.not_mem_nil, or_false, not_or] at hs
    obtain ⟨h1, h2, h3, h4, h5, h6, h7, h8⟩ := hs
    simp only [parseCoordinateSystem, h1, h2, h3, h4, h5, h6, h7, h8, if_false]
/-- A file of `2^37` bytes: `fileSize / 32 = 2^32` wraps to the `int32_t` 0, the loop
does not run, and the scene returned has no point. -/
theorem loadSplatFile_of_length_two_pow_37 (logf : F32 → F32) (buf : List Byte)
    (hlen : buf.length = 2 ^ 37) :
    loadSplatFile logf (some buf) {} = some {} := by
  have hsz : (2 : Nat) ^ 37 % 2 ^ 64 = 2 ^ 37 := by norm_num
  have hmod : (2 : Nat) ^ 37 % 32 = 0 := by norm_num
  have hto : toInt32 (2 ^ 37 / 32) = 0 := by
    unfold toInt32; norm_num
  have hm3 : mulInt32 0 3 = some 0 := by decide
  have hm4 : mulInt32 0 4 = some 0 := by decide
  have hr : reserve (some 0) = some () := by decide
  simp only [loadSplatFile, hlen, hsz, hmod, ne_eq, not_true_eq_false, if_false, hto, hm3, hm4, hr,
    Option.some_bind, Int.toNat_zero, decodeRecords]
  rfl

/-- C2 fails for a buffer of `2^37` bytes: `len / 32` is `2^32`, and the scene
returned has zero points and empty arrays. -/
theorem loadSplatFile_count_wraps :
    (List.replicate (2 ^ 37) (0 : Byte)).length % 32 = 0 ∧
    (List.replicate (2 ^ 37) (0 : Byte)).length / 32 = 2 ^ 32 ∧
    loadSplatFile (fun x => x) (some (List.replicate (2 ^ 37) (0 : Byte))) {} = some {} ∧
    ({} : GaussianCloud).numPoints = 0 := by
  refine ⟨?_, ?_, loadSplatFile_of_length_two_pow_37 _ _ (List.length_replicate _ _), rfl⟩
  · rw [List.length_replicate]; norm_num
  · rw [List.length_replicate]; norm_num

/-! ## The scenario record -/

theorem scenario_load (logf : F32 → F32) :
    loadSplatFile logf (some scenarioRecord) { toSystem := CoordinateSystem.RUB } =
      some (scenarioScene logf) := by
  rfl


theorem scenario_values :
    F32.div (F32.lit 1 2) (F32.lit 282095 1000000) = F32.fin false 14868410 126 ∧
    F32.lit 9868940625 10000 = F32.fin false 15790305 145 ∧
    F32.lit 1 2 = F32.fin false 8388608 125 ∧
    F32.lit 1 1 = F32.fin false 8388608 126 ∧
    F32.ofNat 0 = F32.fin false 0 0 := by
  refine ⟨?_, ?_, ?_, ?_, ?_⟩ <;> decide

/-- C3, as amended: the scenario record decodes to position (1, 2, 3), scales
`log 1` each, colour `0.5f / 0.282095f` on each channel (within `1e-4` of 1.7725),
alpha the log of 986894.0625 (the binary32 value of `x / (1 - x)` at the clamp
`1.0f - 1e-6f`; it is below 999999), and rotation (0.5, 0.5, 0.5, 0.5). -/
theorem scenario_decodes (logf : F32 → F32) :
    loadSplatFile logf (some scenarioRecord) { toSystem := CoordinateSystem.RUB } =
      some (scenarioScene logf) ∧
    (scenarioScene logf).positions.map F32.toRat = [1, 2, 3] ∧
    (scenarioScene logf).scales = List.replicate 3 (logf (F32.lit 1 1)) ∧
    (F32.lit 1 1).toRat = 1 ∧
    (scenarioScene logf).colors =
      List.replicate 3 (F32.div (F32.lit 1 2) (F32.lit 282095 1000000)) ∧
    |(F32.div (F32.lit 1 2) (F32.lit 282095 1000000)).toRat - 17725 / 10000| < 1 / 10000 ∧
    (scenarioScene logf).alphas = [logf (F32.lit 9868940625 10000)] ∧
    (F32.lit 9868940625 10000).toRat = 9868940625 / 10000 ∧
    (F32.lit 9868940625 10000).toRat < 999999 ∧
    (scenarioScene logf).rotations.map F32.toRat = [1 / 2, 1 / 2, 1 / 2, 1 / 2] := by
  obtain ⟨hc, ha, hh, h1, _⟩ := scenario_values
  have h2 : F32.lit 2 1 = F32.fin false 8388608 127 := by decide
  have h3 : F32.lit 3 1 = F32.fin false 12582912 127 := by decide
  refine ⟨scenario_load logf, ?_, rfl, ?_, rfl, ?_, rfl, ?_, ?_, ?_⟩
  · simp only [scenarioScene, h1, h2, h3, List.map, F32.toRat]; norm_num
  · rw [h1]; simp only [F32.toRat]; norm_num
  · rw [hc]; simp only [F32.toRat]; rw [abs_lt]; constructor <;> norm_num
  · rw [ha]; simp only [F32.toRat]; norm_num
  · rw [ha]; simp only [F32.toRat]; norm_num
  · simp only [scenarioScene, hh, List.map, F32.toRat]; norm_num

/-- C3 fails: for no `std::log` does the scenario record decode to the rotation
(0, 0, 0, 1). -/
theorem scenario_rotation_not_identity :
    ¬ ∃ (logf : F32 → F32) (cloud : GaussianCloud),
      loadSplatFile logf (some scenarioRecord) { toSystem := CoordinateSystem.RUB } = some cloud ∧
      cloud.rotations = [F32.ofNat 0, F32.ofNat 0, F32.ofNat 0, F32.lit 1 1] := by
  rintro ⟨logf, cloud, h, hr⟩
  rw [scenario_load logf] at h
  obtain ⟨_, _, hh, h1, h0⟩ := scenario_values
  cases h
  simp only [scenarioScene, hh, h1, h0] at hr
  exact absurd hr (by decide)

/-! ## The command line -/

theorem parseArgs_from_to (F T : String)
    (hF : parseCoordinateSystem F ≠ CoordinateSystem.UNSPECIFIED)
    (hT : parseCoordinateSystem T ≠ CoordinateSystem.UNSPECIFIED) :
    parseArgs ["--from-coord", F, "--to-coord", T, "in.splat", "out.spz"] {} =
      Sum.inr { inputFile := "in.splat", outputFile := "out.spz",
                fromCoord := parseCoordinateSystem F, toCoord := parseCoordinateSystem T } := by
  have e1 : ("in.splat".take 1 = "-") = False := by decide
  have e2 : ("out.spz".take 1 = "-") = False := by decide
  simp [parseArgs, hF, hT, e1, e2]

theorem parseArgs_to (T : String)
    (hT : parseCoordinateSystem T ≠ CoordinateSystem.UNSPECIFIED) :
    parseArgs ["--to-coord", T, "in.splat", "out.spz"] {} =
      Sum.inr { inputFile := "in.splat", outputFile := "out.spz",
                toCoord := parseCoordinateSystem T } := by
  have e1 : ("in.splat".take 1 = "-") = False := by decide
  have e2 : ("out.spz".take 1 = "-") = False := by decide
  simp [parseArgs, hT, e1, e2]

/-- The value of `--from-coord` does not reach the conversion: with a `.splat` input
the run is the same as without the option. -/
theorem main_fromCoord_unused (w : World) (prog F T : String)
    (hF : parseCoordinateSystem F ≠ CoordinateSystem.UNSPECIFIED)
    (hT : parseCoordinateSystem T ≠ CoordinateSystem.UNSPECIFIED) :
    main w [prog, "--from-coord", F, "--to-coord", T, "in.splat", "out.spz"] =
      main w [prog, "--to-coord", T, "in.splat", "out.spz"] := by
  have ext : toLower (getFileExtension "in.splat") = ".splat" := by decide
  simp only [main, List.tail_cons, parseArgs_from_to F T hF hT, parseArgs_to T hT, ext,
    detectFromCoord, hF, if_false]
  simp

/-- C7 at `--from-coord RDF --to-coord RUB` on the scenario record: the scene
handed to `saveSpz` is the decoded scene as it is, position (1, 2, 3), where a
conversion from RDF to RUB gives position (1, -2, -3). -/
theorem main_fromCoord_RDF_scenario :
    main scenarioWorld
        ["spz-convert", "--from-coord", "RDF", "--to-coord", "RUB", "in.splat", "out.spz"] =
      Outcome.saved 0 (scenarioScene fun x => x) { fromSystem := CoordinateSystem.RUB } "out.spz" ∧
    main scenarioWorld ["spz-convert", "--to-coord", "RUB", "in.splat", "out.spz"] =
      Outcome.saved 0 (scenarioScene fun x => x) { fromSystem := CoordinateSystem.RUB } "out.spz" ∧
    (scenarioScene fun x => x).positions.map F32.toRat = [1, 2, 3] ∧
    (convertCoordinates (scenarioScene fun x => x) CoordinateSystem.RDF
      CoordinateSystem.RUB).positions.map F32.toRat = [1, -2, -3] := by
  have h1 : F32.lit 1 1 = F32.fin false 8388608 126 := by decide
  have h2 : F32.lit 2 1 = F32.fin false 8388608 127 := by decide
  have h3 : F32.lit 3 1 = F32.fin false 12582912 127 := by decide
  have hc : (convertCoordinates (scenarioScene fun x => x) CoordinateSystem.RDF
      CoordinateSystem.RUB).positions =
      [F32.fin false 8388608 126, F32.fin true 8388608 127, F32.fin true 12582912 127] := by
    decide
  refine ⟨by rfl, by rfl, ?_, ?_⟩
  · simp only [scenarioScene, h1, h2, h3, List.map, F32.toRat]; norm_num
  · rw [hc]; simp only [List.map, F32.toRat]; norm_num

/-! ## The rotation quaternion -/

/-- The square of a component between `2^-8` and 1. -/
theorem square_near (q : F32) (hq : q.isFinite = true) (hlo : 1 / 2 ^ 8 ≤ q.mag)
    (hhi : q.mag ≤ 1) :
    (F32.mul q q).isFinite = true ∧ (F32.mul q q).isNeg = false ∧
      Near 1 (F32.mul q q).mag (q.mag ^ 2) ∧
      1 / 2 ^ 17 ≤ (F32.mul q q).mag ∧ (F32.mul q q).mag ≤ 2 := by
  have hsq1 : (1 : ℚ) / 2 ^ 16 ≤ q.mag * q.mag := by
    have := mul_le_mul hlo hlo (by positivity) (le_trans (by positivity) hlo)
    calc (1 : ℚ) / 2 ^ 16 = 1 / 2 ^ 8 * (1 / 2 ^ 8) := by norm_num
      _ ≤ _ := this
  have hsq2 : q.mag * q.mag ≤ 1 := by
    have := mul_le_mul hhi hhi (F32.mag_nonneg q) (by norm_num : (0 : ℚ) ≤ 1)
    simpa using this
  obtain ⟨h1, h2, h3⟩ := F32.mul_near q q hq hq
    (le_trans (by norm_num) hsq1) (lt_of_le_of_lt hsq2 (by norm_num))
  have hc := near_crude (by norm_num : 1 ≤ 16) (F32.mag_nonneg _)
    (mul_nonneg (F32.mag_nonneg q) (F32.mag_nonneg q)) h3
  refine ⟨h1, by simpa using h2, by rwa [pow_two], ?_, ?_⟩
  · have := hc.2
    have : (1 : ℚ) / 2 ^ 16 ≤ (1 + 1 / 1000000) * (F32.mul q q).mag := le_trans hsq1 this
    calc (1 : ℚ) / 2 ^ 17 = (1 / 2 ^ 16) / 2 := by norm_num
      _ ≤ ((1 + 1 / 1000000) * (F32.mul q q).mag) / 2 := by linarith
      _ ≤ (F32.mul q q).mag := by
        have := F32.mag_nonneg (F32.mul q q); linarith
  · calc (F32.mul q q).mag ≤ (1 + 1 / 1000000) * (q.mag * q.mag) := hc.1
      _ ≤ (1 + 1 / 1000000) * 1 := by linarith
      _ ≤ 2 := by norm_num

/-- Adding a square to a running sum of squares. -/
theorem sum_near {k : Nat} (t s : F32) (T S : ℚ) (hk1 : 1 ≤ k)
    (ht : t.isFinite = true) (hs : s.isFinite = true)
    (nt : t.isNeg = false) (ns : s.isNeg = false)
    (hT : Near k t.mag T) (hS : Near 1 s.mag S) (hT0 : 0 ≤ T) (hS0 : 0 ≤ S)
    (tlo : 1 / 2 ^ 17 ≤ t.mag) (thi : t.mag ≤ 16) (slo : 1 / 2 ^ 17 ≤ s.mag) (shi : s.mag ≤ 2) :
    (F32.add t s).isFinite = true ∧ (F32.add t s).isNeg = false ∧
      Near (k + 1) (F32.add t s).mag (T + S) ∧
      1 / 2 ^ 17 ≤ (F32.add t s).mag ∧
      (F32.add t s).mag ≤ (1 + 1 / 1000000) * (t.mag + s.mag) := by
  obtain ⟨h1, h2, h3⟩ := F32.add_near t s ht hs nt ns
    (by have e : (1 : ℚ) / 2 ^ 126 ≤ 1 / 2 ^ 17 := by norm_num
        linarith)
    (by have e : (16 : ℚ) + 2 < 2 ^ 127 := by norm_num
        linarith)
  have hS' : Near k s.mag S := near_mono hk1 (F32.mag_nonneg s) hS0 hS
  have h4 := near_add hT hS'
  have h5 := near_trans h3 h4
  have h6 : Near (k + 1) (F32.add t s).mag (T + S) :=
    near_mono (by omega) (F32.mag_nonneg _) (by linarith) h5
  have hc := near_crude (by norm_num : 1 ≤ 16) (F32.mag_nonneg _)
    (add_nonneg (F32.mag_nonneg t) (F32.mag_nonneg s)) h3
  refine ⟨h1, h2, h6, ?_, hc.1⟩
  have h7 := hc.2
  have h8 := F32.mag_nonneg (F32.add t s)
  have e1 : (1 : ℚ) / 2 ^ 17 + 1 / 2 ^ 17 ≤ (1 + 1 / 1000000) * (F32.add t s).mag := by linarith
  have e2 : (1 : ℚ) / 2 ^ 17 * (1 + 1 / 1000000) ≤ 1 / 2 ^ 17 + 1 / 2 ^ 17 := by norm_num
  have e3 : (1 : ℚ) / 2 ^ 17 * (1 + 1 / 1000000) ≤ (1 + 1 / 1000000) * (F32.add t s).mag :=
    e2.trans e1
  rw [mul_comm] at e3
  exact le_of_mul_le_mul_left e3 (by norm_num)

/-- The computed norm of four components between `2^-8` and 1: positive, and its
square is the exact sum of squares up to seven roundings. -/
theorem quatNorm_near (q0 q1 q2 q3 : F32)
    (f0 : q0.isFinite = true) (f1 : q1.isFinite = true) (f2 : q2.isFinite = true)
    (f3 : q3.isFinite = true)
    (l0 : 1 / 2 ^ 8 ≤ q0.mag) (l1 : 1 / 2 ^ 8 ≤ q1.mag) (l2 : 1 / 2 ^ 8 ≤ q2.mag)
    (l3 : 1 / 2 ^ 8 ≤ q3.mag)
    (u0 : q0.mag ≤ 1) (u1 : q1.mag ≤ 1) (u2 : q2.mag ≤ 1) (u3 : q3.mag ≤ 1) :
    (quatNorm q0 q1 q2 q3).isFinite = true ∧ (quatNorm q0 q1 q2 q3).isNeg = false ∧
      Near 7 ((quatNorm q0 q1 q2 q3).mag ^ 2)
        (q0.mag ^ 2 + q1.mag ^ 2 + q2.mag ^ 2 + q3.mag ^ 2) ∧
      1 / 2 ^ 8 ≤ (quatNorm q0 q1 q2 q3).mag ∧ (quatNorm q0 q1 q2 q3).mag ≤ 4 := by
  obtain ⟨a1, a2, a3, a4, a5⟩ := square_near q0 f0 l0 u0
  obtain ⟨b1, b2, b3, b4, b5⟩ := square_near q1 f1 l1 u1
  obtain ⟨c1, c2, c3, c4, c5⟩ := square_near q2 f2 l2 u2
  obtain ⟨d1, d2, d3, d4, d5⟩ := square_near q3 f3 l3 u3
  have p0 : (0 : ℚ) ≤ q0.mag ^ 2 := by positivity
  have p1 : (0 : ℚ) ≤ q1.mag ^ 2 := by positivity
  have p2 : (0 : ℚ) ≤ q2.mag ^ 2 := by positivity
  have p3 : (0 : ℚ) ≤ q3.mag ^ 2 := by positivity
  obtain ⟨s1, s2, s3, s4, s5⟩ := sum_near (F32.mul q0 q0) (F32.mul q1 q1) _ _ le_rfl
    a1 b1 a2 b2 a3 b3 p0 p1 a4 (by linarith) b4 b5
  obtain ⟨t1, t2, t3, t4, t5⟩ := sum_near _ (F32.mul q2 q2) _ _ (by norm_num) s1 c1 s2 c2 s3 c3
    (by linarith) p2 s4 (by linarith) c4 c5
  obtain ⟨v1, v2, v3, v4, v5⟩ := sum_near _ (F32.mul q3 q3) _ _ (by norm_num) t1 d1 t2 d2 t3 d3
    (by linarith) p3 t4 (by linarith) d4 d5
  have vhi : (F32.add (F32.add (F32.add (F32.mul q0 q0) (F32.mul q1 q1)) (F32.mul q2 q2))
      (F32.mul q3 q3)).mag ≤ 16 := by linarith
  obtain ⟨r1, r2, r3⟩ := F32.sqrt_near _ v1 v2 (lt_of_lt_of_le (by norm_num) v4)
    (lt_of_le_of_lt vhi (by norm_num))
  have r4 := near_trans r3 v3
  have hQ0 : (0 : ℚ) ≤ q0.mag ^ 2 + q1.mag ^ 2 + q2.mag ^ 2 + q3.mag ^ 2 := by linarith
  have hn0 : (0 : ℚ) ≤ (quatNorm q0 q1 q2 q3).mag := F32.mag_nonneg _
  have hc := near_crude (by norm_num : 3 + (3 + 1) ≤ 16) (by positivity) hQ0 r4
  have sq0 : (1 : ℚ) / 2 ^ 16 ≤ q0.mag ^ 2 := by
    have := mul_le_mul l0 l0 (by positivity) (le_trans (by positivity) l0)
    rw [pow_two]; refine le_trans (le_of_eq ?_) this; norm_num
  have sq1 : (1 : ℚ) / 2 ^ 16 ≤ q1.mag ^ 2 := by
    have := mul_le_mul l1 l1 (by positivity) (le_trans (by positivity) l1)
    rw [pow_two]; refine le_trans (le_of_eq ?_) this; norm_num
  have sq0' : q0.mag ^ 2 ≤ 1 := by
    have := mul_le_mul u0 u0 (F32.mag_nonneg q0) (by norm_num : (0 : ℚ) ≤ 1)
    rw [pow_two]; simpa using this
  have sq1' : q1.mag ^ 2 ≤ 1 := by
    have := mul_le_mul u1 u1 (F32.mag_nonneg q1) (by norm_num : (0 : ℚ) ≤ 1)
    rw [pow_two]; simpa using this
  have sq2' : q2.mag ^ 2 ≤ 1 := by
    have := mul_le_mul u2 u2 (F32.mag_nonneg q2) (by norm_num : (0 : ℚ) ≤ 1)
    rw [pow_two]; simpa using this
  have sq3' : q3.mag ^ 2 ≤ 1 := by
    have := mul_le_mul u3 u3 (F32.mag_nonneg q3) (by norm_num : (0 : ℚ) ≤ 1)
    rw [pow_two]; simpa using this
  refine ⟨r1, r2, r4, ?_, ?_⟩
  · by_contra hlt
    push_neg at hlt
    have : (quatNorm q0 q1 q2 q3).mag ^ 2 < (1 / 2 ^ 8) ^ 2 := by
      apply pow_lt_pow_left₀ hlt hn0 (by norm_num)
    have h2 := hc.2
    simp only [quatNorm] at this h2
    norm_num at this h2 sq0 sq1
    linarith
  · by_contra hgt
    push_neg at hgt
    have : (4 : ℚ) ^ 2 < (quatNorm q0 q1 q2 q3).mag ^ 2 := by
      apply pow_lt_pow_left₀ hgt (by norm_num) (by norm_num)
    have h1 := hc.1
    simp only [quatNorm] at this h1
    norm_num at this h1
    linarith

/-- A component over the norm: finite, and the exact quotient up to one rounding. -/
theorem component_near (q n : F32) (fq : q.isFinite = true) (fn : n.isFinite = true)
    (lq : 1 / 2 ^ 8 ≤ q.mag) (uq : q.mag ≤ 1) (ln : 1 / 2 ^ 8 ≤ n.mag) (un : n.mag ≤ 4) :
    (F32.div q n).isFinite = true ∧
      Near 2 ((F32.div q n).mag ^ 2) (q.mag ^ 2 / n.mag ^ 2) := by
  have hn0 : 0 < n.mag := lt_of_lt_of_le (by norm_num) ln
  have hq0 : 0 < q.mag := lt_of_lt_of_le (by norm_num) lq
  have hlo : 1 / 2 ^ 126 ≤ q.mag / n.mag := by
    rw [le_div_iff₀ hn0]
    have e : (1 : ℚ) / 2 ^ 126 * n.mag ≤ 1 / 2 ^ 126 * 4 := by
      apply mul_le_mul_of_nonneg_left un (by positivity)
    refine le_trans e (le_trans ?_ lq); norm_num
  have hhi : q.mag / n.mag < 2 ^ 127 := by
    rw [div_lt_iff₀ hn0]
    have e : (2 : ℚ) ^ 127 * (1 / 2 ^ 8) ≤ 2 ^ 127 * n.mag := by
      apply mul_le_mul_of_nonneg_left ln (by positivity)
    refine lt_of_le_of_lt uq (lt_of_lt_of_le ?_ e); norm_num
  obtain ⟨h1, _, h3⟩ := F32.div_near q n fq fn hn0 hlo hhi
  have hd0 : (0 : ℚ) ≤ q.mag / n.mag := by positivity
  have h4 := near_mul (F32.mag_nonneg _) hd0 (F32.mag_nonneg _) hd0 h3 h3
  refine ⟨h1, ?_⟩
  have e : q.mag ^ 2 / n.mag ^ 2 = q.mag / n.mag * (q.mag / n.mag) := by
    rw [pow_two, pow_two, div_mul_div_comm]
  rw [e, pow_two]
  exact h4

/-- Normalizing four components between `2^-8` and 1: the norm is above zero, the
result is the four quotients, and their squares sum to 1 up to nine roundings. -/
theorem normalizeQuat_near (q0 q1 q2 q3 : F32)
    (f0 : q0.isFinite = true) (f1 : q1.isFinite = true) (f2 : q2.isFinite = true)
    (f3 : q3.isFinite = true)
    (l0 : 1 / 2 ^ 8 ≤ q0.mag) (l1 : 1 / 2 ^ 8 ≤ q1.mag) (l2 : 1 / 2 ^ 8 ≤ q2.mag)
    (l3 : 1 / 2 ^ 8 ≤ q3.mag)
    (u0 : q0.mag ≤ 1) (u1 : q1.mag ≤ 1) (u2 : q2.mag ≤ 1) (u3 : q3.mag ≤ 1) :
    F32.lt (F32.ofNat 0) (quatNorm q0 q1 q2 q3) = true ∧
    normalizeQuat q0 q1 q2 q3 =
      [F32.div q0 (quatNorm q0 q1 q2 q3), F32.div q1 (quatNorm q0 q1 q2 q3),
        F32.div q2 (quatNorm q0 q1 q2 q3), F32.div q3 (quatNorm q0 q1 q2 q3)] ∧
    (F32.div q0 (quatNorm q0 q1 q2 q3)).isFinite = true ∧
    (F32.div q1 (quatNorm q0 q1 q2 q3)).isFinite = true ∧
    (F32.div q2 (quatNorm q0 q1 q2 q3)).isFinite = true ∧
    (F32.div q3 (quatNorm q0 q1 q2 q3)).isFinite = true ∧
    Near 9 ((F32.div q0 (quatNorm q0 q1 q2 q3)).mag ^ 2
        + (F32.div q1 (quatNorm q0 q1 q2 q3)).mag ^ 2
        + (F32.div q2 (quatNorm q0 q1 q2 q3)).mag ^ 2
        + (F32.div q3 (quatNorm q0 q1 q2 q3)).mag ^ 2) 1 := by
  obtain ⟨n1, n2, n3, n4, n5⟩ := quatNorm_near q0 q1 q2 q3 f0 f1 f2 f3 l0 l1 l2 l3 u0 u1 u2 u3
  have hlt := F32.zero_lt_of_mag_pos _ n1 n2 (lt_of_lt_of_le (by norm_num) n4)
  have hlist : normalizeQuat q0 q1 q2 q3 =
      [F32.div q0 (quatNorm q0 q1 q2 q3), F32.div q1 (quatNorm q0 q1 q2 q3),
        F32.div q2 (quatNorm q0 q1 q2 q3), F32.div q3 (quatNorm q0 q1 q2 q3)] := by
    unfold normalizeQuat; rw [if_pos hlt]
  refine ⟨hlt, hlist, ?_⟩
  clear hlt hlist
  generalize quatNorm q0 q1 q2 q3 = n at n1 n2 n3 n4 n5 ⊢
  have hn0 : 0 < n.mag := lt_of_lt_of_le (by norm_num) n4
  obtain ⟨a1, a2⟩ := component_near q0 n f0 n1 l0 u0 n4 n5
  obtain ⟨b1, b2⟩ := component_near q1 n f1 n1 l1 u1 n4 n5
  obtain ⟨c1, c2⟩ := component_near q2 n f2 n1 l2 u2 n4 n5
  obtain ⟨d1, d2⟩ := component_near q3 n f3 n1 l3 u3 n4 n5
  refine ⟨a1, b1, c1, d1, ?_⟩
  · have hsum := near_add (near_add (near_add a2 b2) c2) d2
    have hn2 : (0 : ℚ) < n.mag ^ 2 := by positivity
    have hq0 : (0 : ℚ) < q0.mag := lt_of_lt_of_le (by norm_num) l0
    have hQ : (0 : ℚ) < q0.mag ^ 2 + q1.mag ^ 2 + q2.mag ^ 2 + q3.mag ^ 2 := by positivity
    have e : q0.mag ^ 2 / n.mag ^ 2 + q1.mag ^ 2 / n.mag ^ 2 + q2.mag ^ 2 / n.mag ^ 2
        + q3.mag ^ 2 / n.mag ^ 2
        = (q0.mag ^ 2 + q1.mag ^ 2 + q2.mag ^ 2 + q3.mag ^ 2) / n.mag ^ 2 := by ring
    rw [e] at hsum
    have hdiv := near_div hQ.le hQ.le hn2 hQ (near_refl _) n3
    rw [div_self hQ.ne'] at hdiv
    have h9 := near_trans hsum hdiv
    exact h9

set_option maxHeartbeats 8000000 in
/-- Every mapped rotation byte is a finite float of magnitude between `2^-8` and 1,
negative exactly for the bytes below 128, and within `2^-23` of `(2 b - 255) / 255`
(written over the common denominator). -/
theorem rotComponent_range : ∀ b : Byte,
    (rotComponent b).magWithin (2 ^ 141) (2 ^ 149) = true ∧
    (rotComponent b).isNeg = decide (b.val < 128) ∧
    (255 * (rotComponent b).scaledInt - (2 * (b.val : Int) - 255) * 2 ^ 149).natAbs
      ≤ 255 * 2 ^ 126 := by
  decide

theorem F32.toRat_eq_scaledInt (x : F32) : x.toRat = (x.scaledInt : ℚ) / 2 ^ 149 := by
  cases x with
  | nan => simp [F32.toRat, F32.scaledInt]
  | inf s => simp [F32.toRat, F32.scaledInt]
  | fin s m e =>
    cases s
    · simp [F32.toRat, F32.scaledInt]
    · simp [F32.toRat, F32.scaledInt]; ring

theorem rotComponent_close (b : Byte) :
    |(rotComponent b).toRat - (2 * (b.val : ℚ) - 255) / 255| ≤ 1 / 2 ^ 23 := by
  have h := (rotComponent_range b).2.2
  have hq : (((255 * (rotComponent b).scaledInt - (2 * (b.val : Int) - 255) * 2 ^ 149).natAbs : ℕ) : ℚ)
      ≤ ((255 * 2 ^ 126 : ℕ) : ℚ) := Nat.cast_le.2 h
  rw [Nat.cast_natAbs] at hq
  push_cast at hq
  rw [F32.toRat_eq_scaledInt]
  have e : ((rotComponent b).scaledInt : ℚ) / 2 ^ 149 - (2 * (b.val : ℚ) - 255) / 255
      = (255 * ((rotComponent b).scaledInt : ℚ) - (2 * (b.val : ℚ) - 255) * 2 ^ 149)
        / (255 * 2 ^ 149) := by
    field_simp; ring
  rw [e, abs_div, abs_of_pos (by positivity : (0 : ℚ) < 255 * 2 ^ 149),
    div_le_iff₀ (by positivity)]
  refine le_trans hq (le_of_eq ?_)
  norm_num

theorem rotComponent_bounds (b : Byte) :
    (rotComponent b).isFinite = true ∧ 1 / 2 ^ 8 ≤ (rotComponent b).mag ∧
      (rotComponent b).mag ≤ 1 := by
  obtain ⟨h1, h2, h3⟩ := F32.magWithin_spec _ _ _ (rotComponent_range b).1
  refine ⟨h1, le_trans (le_of_eq ?_) h2, le_trans h3 (le_of_eq ?_)⟩ <;> norm_num

set_option maxHeartbeats 4000000 in
theorem decodeRotation_mid :
    decodeRotation 128 128 128 128 =
      [F32.fin false 8388608 125, F32.fin false 8388608 125, F32.fin false 8388608 125,
        F32.fin false 8388608 125] := by
  decide

/-- C10: every mapped rotation byte is a nonzero finite float, negative exactly
below 128 and within `2^-23` of `(2 b - 255) / 255`; so for every four rotation bytes the computed norm is above zero, the
fallback of `loadSplatFile` is not taken and the quaternion is the four quotients;
the bytes (128, 128, 128, 128) decode to (0.5, 0.5, 0.5, 0.5), not to (0, 0, 0, 1). -/
theorem rotation_fallback_unreachable :
    (∀ b : Byte, (rotComponent b).isFinite = true ∧ (rotComponent b).toRat ≠ 0 ∧
      (rotComponent b).isNeg = decide (b.val < 128) ∧
      |(rotComponent b).toRat - (2 * (b.val : ℚ) - 255) / 255| ≤ 1 / 2 ^ 23) ∧
    (∀ b0 b1 b2 b3 : Byte,
      F32.lt (F32.ofNat 0)
        (quatNorm (rotComponent b0) (rotComponent b1) (rotComponent b2) (rotComponent b3)) = true ∧
      decodeRotation b0 b1 b2 b3 =
        [F32.div (rotComponent b0)
            (quatNorm (rotComponent b0) (rotComponent b1) (rotComponent b2) (rotComponent b3)),
          F32.div (rotComponent b1)
            (quatNorm (rotComponent b0) (rotComponent b1) (rotComponent b2) (rotComponent b3)),
          F32.div (rotComponent b2)
            (quatNorm (rotComponent b0) (rotComponent b1) (rotComponent b2) (rotComponent b3)),
          F32.div (rotComponent b3)
            (quatNorm (rotComponent b0) (rotComponent b1) (rotComponent b2) (rotComponent b3))] ∧
      ∀ (logf : F32 → F32) (cloud : GaussianCloud) (pos scale color : List Byte),
        (pushRecord logf cloud pos scale color [b0, b1, b2, b3]).rotations =
          cloud.rotations ++ decodeRotation b0 b1 b2 b3) ∧
    (decodeRotation 128 128 128 128).map F32.toRat = [1 / 2, 1 / 2, 1 / 2, 1 / 2] ∧
    decodeRotation 128 128 128 128 ≠ [F32.ofNat 0, F32.ofNat 0, F32.ofNat 0, F32.lit 1 1] := by
  refine ⟨?_, ?_, ?_, ?_⟩
  · intro b
    obtain ⟨f, l, _⟩ := rotComponent_bounds b
    refine ⟨f, ?_, (rotComponent_range b).2.1, rotComponent_close b⟩
    intro h0
    have h1 : (rotComponent b).toRat ^ 2 = 0 := by rw [h0]; norm_num
    rw [F32.toRat_sq] at h1
    have h2 : (rotComponent b).mag = 0 := by simpa using h1
    rw [h2] at l
    norm_num at l
  · intro b0 b1 b2 b3
    obtain ⟨f0, l0, u0⟩ := rotComponent_bounds b0
    obtain ⟨f1, l1, u1⟩ := rotComponent_bounds b1
    obtain ⟨f2, l2, u2⟩ := rotComponent_bounds b2
    obtain ⟨f3, l3, u3⟩ := rotComponent_bounds b3
    obtain ⟨hlt, hlist, _⟩ := normalizeQuat_near _ _ _ _ f0 f1 f2 f3 l0 l1 l2 l3 u0 u1 u2 u3
    exact ⟨hlt, hlist, fun _ _ _ _ _ => rfl⟩
  · rw [decodeRotation_mid]; simp only [List.map, F32.toRat]; norm_num
  · rw [decodeRotation_mid]; decide

/-! ## The scale guard -/

theorem log_gap : Real.log (9868940625 / 10000) ≤ Real.log 999999 - 13 / 1000 := by
  have h1 : Real.exp (13 / 1000) ≤ 1 / (1 - 13 / 1000) :=
    Real.exp_bound_div_one_sub_of_interval (by norm_num) (by norm_num)
  have h2 : (13 / 1000 : ℝ) ≤ Real.log (999999 / (9868940625 / 10000)) := by
    rw [Real.le_log_iff_exp_le (by norm_num)]
    refine le_trans h1 ?_
    norm_num
  rw [Real.log_div (by norm_num) (by norm_num)] at h2
  linarith

theorem clamp_constants :
    F32.lit 1 1000000 = F32.fin false 8796093 106 ∧
    F32.sub (F32.lit 1 1) (F32.lit 1 1000000) = F32.fin false 16777199 125 ∧
    F32.lit 1 999999 = F32.fin false 8796102 106 ∧
    F32.lit 9868940625 10000 = F32.fin false 15790305 145 ∧
    F32.lit 999999 1 = F32.fin false 15999984 145 := by
  refine ⟨?_, ?_, ?_, ?_, ?_⟩ <;> decide

/-- What the clamp of line 16 is, case by case. -/
theorem clampUnit_cases (x : F32) :
    (x = F32.nan → clampUnit x = F32.lit 1 1000000) ∧
    (F32.lt x (F32.lit 1 1000000) = true → clampUnit x = F32.lit 1 1000000) ∧
    (F32.lt (F32.sub (F32.lit 1 1) (F32.lit 1 1000000)) x = true →
      clampUnit x = F32.sub (F32.lit 1 1) (F32.lit 1 1000000)) ∧
    (F32.lt (F32.lit 1 1000000) x = true →
      F32.le x (F32.sub (F32.lit 1 1) (F32.lit 1 1000000)) = true → clampUnit x = x) := by
  obtain ⟨hlo, hhi, _, _, _⟩ := clamp_constants
  unfold clampUnit
  rw [hhi, hlo]
  refine ⟨?_, ?_, ?_, ?_⟩
  · rintro rfl; simp [F32.max, F32.min, F32.lt]
  · intro h
    cases x with
    | nan => simp [F32.lt] at h
    | inf t => cases t <;> simp_all [F32.max, F32.min, F32.lt]
    | fin t n f =>
      cases t
      · simp only [F32.lt, decide_eq_true_eq] at h
        have e1 : F32.lt (F32.fin false 16777199 125) (F32.fin false n f) = false := by
          simp only [F32.lt, decide_eq_false_iff_not]
          have : 8796093 * 2 ^ 106 < 16777199 * 2 ^ 125 := by norm_num
          omega
        have e2 : F32.lt (F32.fin false 8796093 106) (F32.fin false n f) = false := by
          simp only [F32.lt, decide_eq_false_iff_not]
          omega
        simp only [F32.max, F32.min, e1, e2, Bool.false_eq_true, if_false]
      · have e1 : F32.lt (F32.fin false 16777199 125) (F32.fin true n f) = false := rfl
        have e2 : F32.lt (F32.fin false 8796093 106) (F32.fin true n f) = false := rfl
        simp only [F32.max, F32.min, e1, e2, Bool.false_eq_true, if_false]
  · intro h
    have h2 : F32.lt (F32.fin false 8796093 106) (F32.fin false 16777199 125) = true := by decide
    simp [F32.max, F32.min, h, h2]
  · intro h1 h2
    have h3 := F32.lt_false_of_le h2
    simp [F32.max, F32.min, h1, h3]

set_option maxHeartbeats 4000000 in
/-- The operand of the log is, for every opacity byte, a positive finite float. -/
theorem alphaArg_range : ∀ a : Byte,
    (alphaArg a).magWithin (2 ^ 120) (2 ^ 170) = true ∧ (alphaArg a).isNeg = false := by
  decide

set_option maxHeartbeats 8000000 in
/-- The operand of the log does not decrease from one opacity byte to the next. -/
theorem alphaArg_step : ∀ a : Byte, a.val < 255 →
    (alphaArg a).scaled ≤ (alphaArg (a + 1)).scaled := by
  decide

theorem alphaArg_mono_aux : ∀ (n : Nat) (a : Byte) (h : a.val + n < 256),
    (alphaArg a).scaled ≤ (alphaArg ⟨a.val + n, h⟩).scaled
  | 0, a, _ => le_rfl
  | n + 1, a, h => by
    have ih := alphaArg_mono_aux n a (by omega)
    have hs := alphaArg_step ⟨a.val + n, by omega⟩ (by simp; omega)
    have e : (⟨a.val + n, by omega⟩ : Byte) + 1 = ⟨a.val + (n + 1), h⟩ := by
      apply Fin.ext
      rw [Fin.val_add]
      simp
      omega
    rw [e] at hs
    exact le_trans ih hs

theorem alphaArg_mono (a b : Byte) (h : a ≤ b) : (alphaArg a).scaled ≤ (alphaArg b).scaled := by
  have hab : a.val ≤ b.val := h
  have := alphaArg_mono_aux (b.val - a.val) a (by omega)
  have e : (⟨a.val + (b.val - a.val), by omega⟩ : Byte) = b := by
    apply Fin.ext; simp; omega
  rw [e] at this
  exact this

theorem alphaArg_le (a b : Byte) (h : a ≤ b) : F32.le (alphaArg a) (alphaArg b) = true := by
  have hm := alphaArg_mono a b h
  obtain ⟨ra, sa⟩ := alphaArg_range a
  obtain ⟨rb, sb⟩ := alphaArg_range b
  generalize alphaArg a = x at hm ra sa
  generalize alphaArg b = y at hm rb sb
  cases x with
  | nan => simp [F32.magWithin] at ra
  | inf t => simp [F32.magWithin] at ra
  | fin t n f =>
    cases y with
    | nan => simp [F32.magWithin] at rb
    | inf u => simp [F32.magWithin] at rb
    | fin u k g =>
      simp only [F32.isNeg] at sa sb
      subst sa sb
      simp only [F32.scaled] at hm
      simp only [F32.le, F32.lt, Bool.not_eq_true', decide_eq_false_iff_not, not_lt]
      exact hm

theorem alphaArg_pos (a : Byte) :
    (alphaArg a).isFinite = true ∧ (alphaArg a).isNeg = false ∧ 0 < (alphaArg a).mag := by
  obtain ⟨r, s⟩ := alphaArg_range a
  obtain ⟨h1, h2, _⟩ := F32.magWithin_spec _ _ _ r
  exact ⟨h1, s, lt_of_lt_of_le (by positivity) h2⟩

theorem alphaArg_isPos (a : Byte) : (alphaArg a).isPos = true := by
  obtain ⟨h1, h2, h3⟩ := alphaArg_pos a
  exact F32.isPos_of_mag_pos _ h1 h2 h3

/-- C8, as amended: the value appended to `alphas` is `invSigmoid` of the opacity
byte over 255, and `invSigmoid x` is the log of `c / (1 - c)` computed in binary32,
`c` the clamp of `x` to `[1e-6f, 1.0f - 1e-6f]` (a NaN clamps to `1e-6f`), and
`1.0f - 1e-6f` is `1 - 17 * 2^-24`.  For every opacity byte the operand of the log
is a positive finite float that does not decrease with the byte, from the float
nearest `1 / 999999` at byte 0 to 986894.0625 at byte 255.  So for a log that does
not decrease on the positive floats and is finite on the positive finite ones
(nothing is asked of it at zero, at a negative operand or at NaN) the decoded
alpha is finite, does not decrease with the byte, and lies between its values at
bytes 0 and 255; the top value is the log of 986894.0625, more than 0.013 below
`ln 999999`. -/
theorem invSigmoid_bytes (logf : F32 → F32)
    (hmono : ∀ x y, x.isPos = true → y.isPos = true → F32.le x y = true →
      F32.le (logf x) (logf y) = true)
    (hfin : ∀ x : F32, x.isFinite = true → x.isNeg = false → 0 < x.mag →
      (logf x).isFinite = true) :
    (∀ (cloud : GaussianCloud) (pos scale color rot : List Byte),
      (pushRecord logf cloud pos scale color rot).alphas =
        cloud.alphas ++ [decodeAlpha logf (color.getD 3 0)]) ∧
    (∀ x, invSigmoid logf x =
      logf (F32.div (clampUnit x) (F32.sub (F32.lit 1 1) (clampUnit x)))) ∧
    (∀ x, (x = F32.nan → clampUnit x = F32.lit 1 1000000) ∧
      (F32.lt x (F32.lit 1 1000000) = true → clampUnit x = F32.lit 1 1000000) ∧
      (F32.lt (F32.sub (F32.lit 1 1) (F32.lit 1 1000000)) x = true →
        clampUnit x = F32.sub (F32.lit 1 1) (F32.lit 1 1000000)) ∧
      (F32.lt (F32.lit 1 1000000) x = true →
        F32.le x (F32.sub (F32.lit 1 1) (F32.lit 1 1000000)) = true → clampUnit x = x)) ∧
    |(F32.lit 1 1000000).toRat - 1 / 10 ^ 6| ≤ 1 / 10 ^ 13 ∧
    (F32.sub (F32.lit 1 1) (F32.lit 1 1000000)).toRat = 1 - 17 / 2 ^ 24 ∧
    (∀ a : Byte, decodeAlpha logf a = logf (alphaArg a) ∧
      (alphaArg a).isFinite = true ∧ 0 < (alphaArg a).toRat ∧
      (decodeAlpha logf a).isFinite = true) ∧
    (∀ a b : Byte, a ≤ b → F32.le (alphaArg a) (alphaArg b) = true ∧
      F32.le (decodeAlpha logf a) (decodeAlpha logf b) = true) ∧
    (∀ a : Byte, F32.le (decodeAlpha logf 0) (decodeAlpha logf a) = true ∧
      F32.le (decodeAlpha logf a) (decodeAlpha logf 255) = true) ∧
    decodeAlpha logf 0 = logf (F32.lit 1 999999) ∧
    decodeAlpha logf 255 = logf (F32.lit 9868940625 10000) ∧
    |(F32.lit 1 999999).toRat - 1 / 999999| ≤ 1 / 10 ^ 13 ∧
    (F32.lit 9868940625 10000).toRat = 9868940625 / 10000 ∧
    Real.log (9868940625 / 10000) ≤ Real.log 999999 - 13 / 1000 := by
  obtain ⟨clo, chi, c0, c255, _⟩ := clamp_constants
  have a0 : alphaArg 0 = F32.lit 1 999999 := by decide
  have a255 : alphaArg 255 = F32.lit 9868940625 10000 := by decide
  have hle : ∀ a b : Byte, a ≤ b → F32.le (decodeAlpha logf a) (decodeAlpha logf b) = true :=
    fun a b h => hmono _ _ (alphaArg_isPos a) (alphaArg_isPos b) (alphaArg_le a b h)
  refine ⟨fun _ _ _ _ _ => rfl, fun _ => rfl, clampUnit_cases, ?_, ?_, ?_, ?_, ?_, ?_, ?_, ?_, ?_,
    log_gap⟩
  · rw [clo]; simp only [F32.toRat]; rw [abs_le]; constructor <;> norm_num
  · rw [chi]; simp only [F32.toRat]; norm_num
  · intro a
    obtain ⟨h1, h2, h3⟩ := alphaArg_pos a
    refine ⟨rfl, h1, ?_, hfin _ h1 h2 h3⟩
    generalize alphaArg a = x at h1 h2 h3
    cases x with
    | nan => simp [F32.isFinite] at h1
    | inf t => simp [F32.isFinite] at h1
    | fin t n f =>
      simp only [F32.isNeg] at h2
      subst h2
      simpa [F32.toRat, F32.mag] using h3
  · exact fun a b h => ⟨alphaArg_le a b h, hle a b h⟩
  · intro a
    exact ⟨hle 0 a (Fin.zero_le a), hle a 255 (Fin.le_last a)⟩
  · show logf (alphaArg 0) = _
    rw [a0]
  · show logf (alphaArg 255) = _
    rw [a255]
  · rw [c0]; simp only [F32.toRat]; rw [abs_le]; constructor <;> norm_num
  · rw [c255]; simp only [F32.toRat]; norm_num

/-- C8, as amended, with the binary logarithm rounded down standing for the log:
the decoded alpha is -20 at byte 0 and 19 at byte 255, and does not decrease. -/
theorem invSigmoid_bytes_witness :
    decodeAlpha floorLog2 0 = F32.neg (F32.ofNat 20) ∧
    decodeAlpha floorLog2 255 = F32.ofNat 19 ∧
    (∀ a b : Byte, a ≤ b →
      F32.le (decodeAlpha floorLog2 a) (decodeAlpha floorLog2 b) = true) ∧
    (∀ a : Byte, (decodeAlpha floorLog2 a).isFinite = true) := by
  have h := invSigmoid_bytes floorLog2 floorLog2_mono floorLog2_finite
  refine ⟨?_, ?_, fun a b hab => (h.2.2.2.2.2.2.1 a b hab).2, fun a => (h.2.2.2.2.2.1 a).2.2.2⟩
  · rw [h.2.2.2.2.2.2.2.2.1]; decide
  · rw [h.2.2.2.2.2.2.2.2.2.1]; decide

/-- C8 fails at byte 255: the decoded alpha is not the log of 999999 but the log of
986894.0625, whose real logarithm is more than 0.013 below `ln 999999`. -/
theorem alpha_top_below_bound :
    (¬ ∀ logf : F32 → F32, decodeAlpha logf 255 = logf (F32.lit 999999 1)) ∧
    (∀ logf : F32 → F32, decodeAlpha logf 255 = logf (F32.lit 9868940625 10000)) ∧
    (F32.lit 9868940625 10000).toRat = 9868940625 / 10000 ∧
    (F32.lit 999999 1).toRat = 999999 ∧
    Real.log (9868940625 / 10000) ≤ Real.log 999999 - 13 / 1000 := by
  obtain ⟨_, _, _, c255, c9⟩ := clamp_constants
  have a255 : alphaArg 255 = F32.lit 9868940625 10000 := by decide
  refine ⟨?_, ?_, ?_, ?_, log_gap⟩
  · intro h
    have h1 := h (fun x => x)
    have h2 : decodeAlpha (fun x => x) 255 = alphaArg 255 := rfl
    rw [h2, a255, c255, c9] at h1
    exact absurd h1 (by decide)
  · intro logf
    show logf (alphaArg 255) = _
    rw [a255]
  · rw [c255]; simp only [F32.toRat]; norm_num
  · rw [c9]; simp only [F32.toRat]; norm_num

/-! ## Re-encoding decoded bytes -/

set_option maxHeartbeats 8000000 in
/-- Every colour byte comes back from its decoded coefficient. -/
theorem encodeColor_decodeColor : ∀ b : Byte, encodeColor (decodeColor b) = b.val := by
  decide

set_option maxHeartbeats 8000000 in
theorem alphaArg_margin : ∀ a : Byte, roundTripMargin a.val (alphaArg a) = true := by
  decide

theorem encode_constants :
    F32.lit 1 1 = F32.fin false 8388608 126 ∧ F32.lit 255 1 = F32.fin false 16711680 133 := by
  refine ⟨?_, ?_⟩ <;> decide

theorem roundClampByte_eq (x : F32) (a : Nat) (ha : a ≤ 255) (hx : x.isFinite = true)
    (sx : x.isNeg = false) (hlo : (a : ℚ) - 1 / 2 ≤ x.mag) (hhi : x.mag < (a : ℚ) + 1 / 2) :
    roundClampByte x = a := by
  cases x with
  | nan => simp [F32.isFinite] at hx
  | inf s => simp [F32.isFinite] at hx
  | fin s m e =>
    simp only [F32.isNeg] at sx
    subst sx
    simp only [F32.mag] at hlo hhi
    have h1 : a * 2 ^ 150 ≤ 2 * (m * 2 ^ e) + 2 ^ 149 := by
      rw [le_div_iff₀ (by positivity)] at hlo
      have : ((a * 2 ^ 150 : ℕ) : ℚ) ≤ ((2 * (m * 2 ^ e) + 2 ^ 149 : ℕ) : ℚ) := by
        push_cast
        norm_num at hlo ⊢
        linarith
      exact Nat.cast_le.1 this
    have h2 : 2 * (m * 2 ^ e) + 2 ^ 149 < (a + 1) * 2 ^ 150 := by
      rw [div_lt_iff₀ (by positivity)] at hhi
      have : ((2 * (m * 2 ^ e) + 2 ^ 149 : ℕ) : ℚ) < (((a + 1) * 2 ^ 150 : ℕ) : ℚ) := by
        push_cast
        norm_num at hhi ⊢
        linarith
      exact Nat.cast_lt.1 this
    have h3 : (2 * (m * 2 ^ e) + 2 ^ 149) / 2 ^ 150 = a := by
      apply Nat.le_antisymm
      · exact Nat.le_of_lt_succ ((Nat.div_lt_iff_lt_mul (by positivity)).2 h2)
      · exact (Nat.le_div_iff_mul_le (by positivity)).2 h1
    simp only [roundClampByte, Bool.false_eq_true, if_false, h3]
    exact Nat.min_eq_right ha

theorem F32.scaled_cast (x : F32) : (x.scaled : ℚ) = x.mag * ((2 ^ 149 : ℕ) : ℚ) := by
  have hP : (((2 ^ 149 : ℕ) : ℚ)) = 2 ^ 149 := by norm_cast
  cases x with
  | nan => simp [F32.scaled, F32.mag]
  | inf t => simp [F32.scaled, F32.mag]
  | fin t n f =>
    simp only [F32.scaled, F32.mag]
    rw [hP, div_mul_cancel₀ _ (by positivity)]
    norm_cast

theorem margin_lower (a S P : Nat) (R : ℚ) (hP : 0 < P) (hS : (S : ℚ) = R * P) (ha : 1 ≤ a)
    (g : (2 * a - 1) * 1000001 * (1000 * S + 1001 * P) ≤ 510 * 1000000 * 1000 * S) :
    (2 * (a : ℚ) - 1) * 1000001 * (1000 * R + 1001) ≤ 510 * 1000000 * 1000 * R := by
  have h21 : 1 ≤ 2 * a := by omega
  have h : (((2 * a - 1) * 1000001 * (1000 * S + 1001 * P) : ℕ) : ℚ)
      ≤ ((510 * 1000000 * 1000 * S : ℕ) : ℚ) := Nat.cast_le.2 g
  have hPq : (0 : ℚ) < P := by exact_mod_cast hP
  have e1 : (((2 * a - 1) * 1000001 * (1000 * S + 1001 * P) : ℕ) : ℚ)
      = ((2 * (a : ℚ) - 1) * 1000001 * (1000 * R + 1001)) * P := by
    push_cast [Nat.cast_sub h21]; rw [hS]; ring
  have e2 : ((510 * 1000000 * 1000 * S : ℕ) : ℚ) = (510 * 1000000 * 1000 * R) * P := by
    push_cast; rw [hS]; ring
  rw [e1, e2] at h
  exact le_of_mul_le_mul_right h hPq

theorem margin_upper (a S P : Nat) (R : ℚ) (hP : 0 < P) (hS : (S : ℚ) = R * P)
    (g : 510 * 1000001 * 1000 * S < (2 * a + 1) * 1000000 * (1000 * S + 999 * P)) :
    510 * 1000001 * 1000 * R < (2 * (a : ℚ) + 1) * 1000000 * (1000 * R + 999) := by
  have h : ((510 * 1000001 * 1000 * S : ℕ) : ℚ)
      < (((2 * a + 1) * 1000000 * (1000 * S + 999 * P) : ℕ) : ℚ) := Nat.cast_lt.2 g
  have hPq : (0 : ℚ) < P := by exact_mod_cast hP
  have e1 : ((510 * 1000001 * 1000 * S : ℕ) : ℚ) = (510 * 1000001 * 1000 * R) * P := by
    push_cast; rw [hS]; ring
  have e2 : (((2 * a + 1) * 1000000 * (1000 * S + 999 * P) : ℕ) : ℚ)
      = ((2 * (a : ℚ) + 1) * 1000000 * (1000 * R + 999)) * P := by
    push_cast; rw [hS]; ring
  rw [e1, e2] at h
  exact lt_of_mul_lt_mul_right h hPq.le

set_option maxHeartbeats 1600000 in
/-- The opacity byte comes back when the exponential undoes the logarithm to
within one part in a thousand. -/
theorem encodeAlpha_of_margin (a : Nat) (ha : a ≤ 255) (r E : F32)
    (hr : r.magWithin (2 ^ 120) (2 ^ 170) = true) (hm : roundTripMargin a r = true)
    (fE : E.isFinite = true) (sE : E.isNeg = false)
    (hlo : 999 / 1000 ≤ E.mag * r.mag) (hhi : E.mag * r.mag ≤ 1001 / 1000) :
    roundClampByte (F32.mul (F32.div (F32.lit 1 1) (F32.add (F32.lit 1 1) E)) (F32.lit 255 1))
      = a := by
  obtain ⟨c1, c255⟩ := encode_constants
  obtain ⟨_, rlo, rhi⟩ := F32.magWithin_spec _ _ _ hr
  have hR0 : 0 < r.mag := lt_of_lt_of_le (by positivity) rlo
  have hE0 : 0 ≤ E.mag := F32.mag_nonneg E
  have m1 : (F32.lit 1 1).mag = 1 := by rw [c1]; simp only [F32.mag]; norm_num
  have m255 : (F32.lit 255 1).mag = 255 := by rw [c255]; simp only [F32.mag]; norm_num
  have f1 : (F32.lit 1 1).isFinite = true := by rw [c1]; rfl
  have s1 : (F32.lit 1 1).isNeg = false := by rw [c1]; rfl
  have f255 : (F32.lit 255 1).isFinite = true := by rw [c255]; rfl
  have s255 : (F32.lit 255 1).isNeg = false := by rw [c255]; rfl
  -- the size of E
  have hEhi : E.mag ≤ 2 ^ 30 := by
    have h1 : E.mag * r.mag ≤ 2 ^ 30 * r.mag := by
      have : (1001 / 1000 : ℚ) ≤ 2 ^ 30 * ((2 ^ 120 : ℕ) / 2 ^ 149) := by norm_num
      have h2 : (2 : ℚ) ^ 30 * ((2 ^ 120 : ℕ) / 2 ^ 149) ≤ 2 ^ 30 * r.mag :=
        mul_le_mul_of_nonneg_left rlo (by positivity)
      linarith
    exact le_of_mul_le_mul_right h1 hR0
  -- 1 + E
  obtain ⟨fa, sa, na⟩ := F32.add_near (F32.lit 1 1) E f1 fE s1 sE
    (by rw [m1]; have : (1 : ℚ) / 2 ^ 126 ≤ 1 := by norm_num
        linarith)
    (by rw [m1]; have : (1 : ℚ) + 2 ^ 30 < 2 ^ 127 := by norm_num
        linarith)
  rw [m1] at na
  have hs0 : (0 : ℚ) < 1 + E.mag := by linarith
  obtain ⟨ca1, ca2⟩ := near_crude (by norm_num : 1 ≤ 16) (F32.mag_nonneg _) hs0.le na
  have hx1lo : (1 : ℚ) / 2 ≤ (F32.add (F32.lit 1 1) E).mag := by
    have : (1 : ℚ) ≤ (1 + 1 / 1000000) * (F32.add (F32.lit 1 1) E).mag := by linarith
    by_contra hc
    push_neg at hc
    have : (1 + 1 / 1000000 : ℚ) * (F32.add (F32.lit 1 1) E).mag < (1 + 1 / 1000000) * (1 / 2) :=
      mul_lt_mul_of_pos_left hc (by norm_num)
    linarith
  have hx1hi : (F32.add (F32.lit 1 1) E).mag ≤ 2 ^ 32 := by
    have : (1 + 1 / 1000000 : ℚ) * (1 + E.mag) ≤ (1 + 1 / 1000000) * (1 + 2 ^ 30) :=
      mul_le_mul_of_nonneg_left (by linarith) (by norm_num)
    have : (1 + 1 / 1000000 : ℚ) * (1 + 2 ^ 30) ≤ 2 ^ 32 := by norm_num
    linarith
  have hx10 : 0 < (F32.add (F32.lit 1 1) E).mag := lt_of_lt_of_le (by norm_num) hx1lo
  -- 1 / (1 + E)
  obtain ⟨fd, sd, nd⟩ := F32.div_near (F32.lit 1 1) _ f1 fa hx10
    (by rw [m1, le_div_iff₀ hx10]
        have : (1 : ℚ) / 2 ^ 126 * (F32.add (F32.lit 1 1) E).mag ≤ 1 / 2 ^ 126 * 2 ^ 32 :=
          mul_le_mul_of_nonneg_left hx1hi (by positivity)
        refine le_trans this ?_; norm_num)
    (by rw [m1, div_lt_iff₀ hx10]
        have : (2 : ℚ) ^ 127 * (1 / 2) ≤ 2 ^ 127 * (F32.add (F32.lit 1 1) E).mag :=
          mul_le_mul_of_nonneg_left hx1lo (by positivity)
        refine lt_of_lt_of_le ?_ this; norm_num)
  rw [m1] at nd
  rw [s1, sa] at sd
  have nd2 := near_trans nd (near_inv hx10 hs0 na)
  -- times 255
  have hx2 : 0 ≤ (F32.div (F32.lit 1 1) (F32.add (F32.lit 1 1) E)).mag := F32.mag_nonneg _
  obtain ⟨cd1, cd2⟩ := near_crude (by norm_num : 1 + 1 ≤ 16) hx2 (by positivity) nd2
  have hinv_hi : 1 / (1 + E.mag) ≤ 1 := by
    rw [div_le_iff₀ hs0]; linarith
  have hinv_lo : 1 / 2 ^ 31 ≤ 1 / (1 + E.mag) := by
    apply one_div_le_one_div_of_le hs0
    have : (1 : ℚ) + 2 ^ 30 ≤ 2 ^ 31 := by norm_num
    linarith
  obtain ⟨fm, sm, nm⟩ := F32.mul_near _ (F32.lit 255 1) fd f255
    (by rw [m255]
        have h1 : (1 : ℚ) / 2 ^ 31 ≤ (1 + 1 / 1000000) *
            (F32.div (F32.lit 1 1) (F32.add (F32.lit 1 1) E)).mag := le_trans hinv_lo cd2
        have h2 : (1 : ℚ) / 2 ^ 32 ≤ (F32.div (F32.lit 1 1) (F32.add (F32.lit 1 1) E)).mag := by
          by_contra hc
          push_neg at hc
          have : (1 + 1 / 1000000 : ℚ) * (F32.div (F32.lit 1 1) (F32.add (F32.lit 1 1) E)).mag
              < (1 + 1 / 1000000) * (1 / 2 ^ 32) := mul_lt_mul_of_pos_left hc (by norm_num)
          have : (1 + 1 / 1000000 : ℚ) * (1 / 2 ^ 32) ≤ 1 / 2 ^ 31 := by norm_num
          linarith
        have : (1 : ℚ) / 2 ^ 126 ≤ 1 / 2 ^ 32 * 255 := by norm_num
        have : (1 : ℚ) / 2 ^ 32 * 255
            ≤ (F32.div (F32.lit 1 1) (F32.add (F32.lit 1 1) E)).mag * 255 :=
          mul_le_mul_of_nonneg_right h2 (by norm_num)
        linarith)
    (by rw [m255]
        have : (F32.div (F32.lit 1 1) (F32.add (F32.lit 1 1) E)).mag ≤ 2 := by linarith
        have : (F32.div (F32.lit 1 1) (F32.add (F32.lit 1 1) E)).mag * 255 ≤ 2 * 255 :=
          mul_le_mul_of_nonneg_right this (by norm_num)
        have : (2 : ℚ) * 255 < 2 ^ 127 := by norm_num
        linarith)
  rw [m255] at nm
  rw [sd, s255] at sm
  have nm2 := near_mul hx2 (by positivity) (by norm_num) (by norm_num) nd2
    (near_refl (255 : ℚ))
  have nm3 := near_trans nm nm2
  obtain ⟨cm1, cm2⟩ := near_crude (by norm_num : 1 + (1 + 1 + 0) ≤ 16) (F32.mag_nonneg _)
    (by positivity) nm3
  -- the margins, in rational form
  simp only [roundTripMargin, decide_eq_true_eq] at hm
  obtain ⟨g1, g2⟩ := hm
  have hS := F32.scaled_cast r
  -- bounds on 255 / (1 + E)
  have hEr1 : 999 / 1000 / r.mag ≤ E.mag := by
    rw [div_le_iff₀ hR0]; exact hlo
  have hEr2 : E.mag ≤ 1001 / 1000 / r.mag := by
    rw [le_div_iff₀ hR0]; exact hhi
  have hup : 255 / (1 + E.mag) ≤ 255 * r.mag / (r.mag + 999 / 1000) := by
    rw [div_le_div_iff₀ hs0 (by positivity)]
    have : 999 / 1000 ≤ E.mag * r.mag := hlo
    nlinarith
  have hdn : 255 * r.mag / (r.mag + 1001 / 1000) ≤ 255 / (1 + E.mag) := by
    rw [div_le_div_iff₀ (by positivity) hs0]
    have : E.mag * r.mag ≤ 1001 / 1000 := hhi
    nlinarith
  have hP : (0 : ℚ) < 2 ^ 149 := by positivity
  have hκ : (0 : ℚ) < 1 + 1 / 1000000 := by norm_num
  refine roundClampByte_eq _ a ha fm sm ?_ ?_
  · rcases Nat.eq_zero_or_pos a with h0 | hpos
    · subst h0
      have := F32.mag_nonneg
        (F32.mul (F32.div (F32.lit 1 1) (F32.add (F32.lit 1 1) E)) (F32.lit 255 1))
      norm_num
      linarith
    · have g1r := margin_lower a r.scaled (2 ^ 149) r.mag (by positivity)
        hS hpos g1
      have hD : (0 : ℚ) < r.mag + 1001 / 1000 := by positivity
      have step : (a : ℚ) - 1 / 2 ≤ 255 * r.mag / (r.mag + 1001 / 1000) / (1 + 1 / 1000000) := by
        rw [le_div_iff₀ hκ, le_div_iff₀ hD]
        linarith
      have step2 : 255 * r.mag / (r.mag + 1001 / 1000) / (1 + 1 / 1000000)
          ≤ (F32.mul (F32.div (F32.lit 1 1) (F32.add (F32.lit 1 1) E)) (F32.lit 255 1)).mag := by
        rw [div_le_iff₀ hκ]
        have e3 : 1 / (1 + E.mag) * 255 = 255 / (1 + E.mag) := by ring
        rw [e3] at cm2
        linarith
      exact le_trans step step2
  · have g2r := margin_upper a r.scaled (2 ^ 149) r.mag (by positivity)
      hS g2
    have hD : (0 : ℚ) < r.mag + 999 / 1000 := by positivity
    have step : (1 + 1 / 1000000) * (255 * r.mag / (r.mag + 999 / 1000)) < (a : ℚ) + 1 / 2 := by
      rw [← mul_div_assoc, div_lt_iff₀ hD]
      linarith
    have e3 : 1 / (1 + E.mag) * 255 = 255 / (1 + E.mag) := by ring
    rw [e3] at cm1
    have step2 : (1 + 1 / 1000000) * (255 / (1 + E.mag))
        ≤ (1 + 1 / 1000000) * (255 * r.mag / (r.mag + 999 / 1000)) :=
      mul_le_mul_of_nonneg_left hup hκ.le
    linarith

theorem F32.neg_neg (x : F32) : F32.neg (F32.neg x) = x := by
  cases x <;> simp [F32.neg]

theorem rotation_samples :
    (decodeRotation 128 128 128 255).map encodeRotation = [128, 128, 128, 255] ∧
    (decodeRotation 255 255 255 255).map encodeRotation = [191, 191, 191, 191] := by
  refine ⟨?_, ?_⟩ <;> decide

/-- C5, as amended: every colour byte is reproduced by re-encoding its decoded
coefficient, and every opacity byte is reproduced provided the library's
`exp(-log r)` is a non-negative finite float within one part in a thousand of
`1 / r` at the 256 operands `r` of the log.  Of the rotation bytes nothing general
holds, since the decoder normalizes: the quadruple (128, 128, 128, 255) is
reproduced, (255, 255, 255, 255) comes back as (191, 191, 191, 191). -/
theorem roundtrip_color_opacity (logf expf : F32 → F32)
    (hlibm : ∀ a : Byte,
      (expf (F32.neg (decodeAlpha logf a))).isFinite = true ∧
      (expf (F32.neg (decodeAlpha logf a))).isNeg = false ∧
      999 / 1000 ≤ (expf (F32.neg (decodeAlpha logf a))).mag * (alphaArg a).mag ∧
      (expf (F32.neg (decodeAlpha logf a))).mag * (alphaArg a).mag ≤ 1001 / 1000) :
    (∀ b : Byte, encodeColor (decodeColor b) = b.val) ∧
    (∀ a : Byte, encodeAlpha expf (decodeAlpha logf a) = a.val) ∧
    (decodeRotation 128 128 128 255).map encodeRotation = [128, 128, 128, 255] ∧
    (decodeRotation 255 255 255 255).map encodeRotation = [191, 191, 191, 191] := by
  refine ⟨encodeColor_decodeColor, ?_, rotation_samples.1, rotation_samples.2⟩
  intro a
  obtain ⟨h1, h2, h3, h4⟩ := hlibm a
  exact encodeAlpha_of_margin a.val (by omega) (alphaArg a) _ (alphaArg_range a).1
    (alphaArg_margin a) h1 h2 h3 h4

/-- The reciprocal undoes the identity the way the exponential undoes the log. -/
theorem reciprocal_inverts (a : Byte) :
    (F32.div (F32.lit 1 1) (F32.neg (F32.neg (alphaArg a)))).isFinite = true ∧
    (F32.div (F32.lit 1 1) (F32.neg (F32.neg (alphaArg a)))).isNeg = false ∧
    999 / 1000 ≤ (F32.div (F32.lit 1 1) (F32.neg (F32.neg (alphaArg a)))).mag
      * (alphaArg a).mag ∧
    (F32.div (F32.lit 1 1) (F32.neg (F32.neg (alphaArg a)))).mag * (alphaArg a).mag
      ≤ 1001 / 1000 := by
  obtain ⟨c1, _⟩ := encode_constants
  have m1 : (F32.lit 1 1).mag = 1 := by rw [c1]; simp only [F32.mag]; norm_num
  have f1 : (F32.lit 1 1).isFinite = true := by rw [c1]; rfl
  have s1 : (F32.lit 1 1).isNeg = false := by rw [c1]; rfl
  obtain ⟨hr, sr⟩ := alphaArg_range a
  obtain ⟨fr, rlo, rhi⟩ := F32.magWithin_spec _ _ _ hr
  rw [F32.neg_neg]
  generalize alphaArg a = r at hr sr fr rlo rhi
  have hR0 : 0 < r.mag := lt_of_lt_of_le (by positivity) rlo
  obtain ⟨fd, sd, nd⟩ := F32.div_near (F32.lit 1 1) r f1 fr hR0
    (by rw [m1, le_div_iff₀ hR0]
        have : (1 : ℚ) / 2 ^ 126 * r.mag ≤ 1 / 2 ^ 126 * ((2 ^ 170 : ℕ) / 2 ^ 149) :=
          mul_le_mul_of_nonneg_left rhi (by positivity)
        refine le_trans this ?_; norm_num)
    (by rw [m1, div_lt_iff₀ hR0]
        have : (2 : ℚ) ^ 127 * ((2 ^ 120 : ℕ) / 2 ^ 149) ≤ 2 ^ 127 * r.mag :=
          mul_le_mul_of_nonneg_left rlo (by positivity)
        refine lt_of_lt_of_le ?_ this; norm_num)
  rw [m1] at nd
  rw [s1, sr] at sd
  obtain ⟨k1, k2⟩ := near_crude (by norm_num : 1 ≤ 16) (F32.mag_nonneg _) (by positivity) nd
  refine ⟨fd, sd, ?_, ?_⟩
  · have h : (1 : ℚ) ≤ (1 + 1 / 1000000) * (F32.div (F32.lit 1 1) r).mag * r.mag := by
      have := mul_le_mul_of_nonneg_right k2 hR0.le
      rw [div_mul_cancel₀ _ hR0.ne'] at this
      exact this
    have h0 := mul_nonneg (F32.mag_nonneg (F32.div (F32.lit 1 1) r)) hR0.le
    nlinarith
  · have h : (F32.div (F32.lit 1 1) r).mag * r.mag ≤ (1 + 1 / 1000000) * (1 / r.mag) * r.mag :=
      mul_le_mul_of_nonneg_right k1 hR0.le
    have e : (1 + 1 / 1000000 : ℚ) * (1 / r.mag) * r.mag = 1 + 1 / 1000000 := by
      rw [mul_assoc, one_div_mul_cancel hR0.ne', mul_one]
    rw [e] at h
    linarith

/-- C5, as amended, with the identity for the log and the reciprocal of the negated
operand for the exponential. -/
theorem roundtrip_color_opacity_witness :
    (∀ b : Byte, encodeColor (decodeColor b) = b.val) ∧
    (∀ a : Byte, encodeAlpha (fun y => F32.div (F32.lit 1 1) (F32.neg y))
      (decodeAlpha (fun x => x) a) = a.val) ∧
    (decodeRotation 128 128 128 255).map encodeRotation = [128, 128, 128, 255] ∧
    (decodeRotation 255 255 255 255).map encodeRotation = [191, 191, 191, 191] :=
  roundtrip_color_opacity (fun x => x) (fun y => F32.div (F32.lit 1 1) (F32.neg y))
    reciprocal_inverts

/-- C5 fails for the rotation bytes: (255, 255, 255, 255) decoded and re-encoded
are (191, 191, 191, 191), and (0, 131, 117, 130) comes back as (1, 131, 117, 130). -/
theorem rotation_roundtrip_fails :
    (decodeRotation 255 255 255 255).map F32.toRat = [1 / 2, 1 / 2, 1 / 2, 1 / 2] ∧
    (decodeRotation 255 255 255 255).map encodeRotation = [191, 191, 191, 191] ∧
    (decodeRotation 255 255 255 255).map encodeRotation ≠ [255, 255, 255, 255] ∧
    (decodeRotation 0 131 117 130).map encodeRotation = [1, 131, 117, 130] ∧
    (decodeRotation 0 131 117 130).map encodeRotation ≠ [0, 131, 117, 130] := by
  have h : decodeRotation 255 255 255 255 =
      [F32.fin false 8388608 125, F32.fin false 8388608 125, F32.fin false 8388608 125,
        F32.fin false 8388608 125] := by decide
  have h2 : (decodeRotation 255 255 255 255).map encodeRotation = [191, 191, 191, 191] := by
    decide
  have h3 : (decodeRotation 0 131 117 130).map encodeRotation = [1, 131, 117, 130] := by
    decide
  refine ⟨?_, h2, ?_, h3, ?_⟩
  · rw [h]; simp only [List.map, F32.toRat]; norm_num
  · rw [h2]; decide
  · rw [h3]; decide

end Spz
